import Mathlib

/-!
Verification development for the ezpack codec: a reflection-based Go
msgpack encoder/decoder for struct types with tagged, bounded fields.

The Go sources are shallowly embedded as follows.

* Go byte slices and Go strings that flow through the codec are `List Nat`
  (one `Nat` per byte); Go `uint64` values are `Nat` carrying an explicit
  bound where it matters.  Lean `String` is used only for pure
  error-message identifiers (Go field names, struct type names).
* Go struct types are `StructType`: the Go field name, the result of
  matching the ezpack struct-tag regex (`RawTag`, `none` when the regex
  does not match), and the field's reflected kind.
* Go struct values are `List Value`, one `Value` per field in declaration
  order.  Go distinguishes nil slices from empty ones, so slice-like
  values carry an explicit `isNil` flag.
* Fallible Go functions returning `(T, error)` become
  `Except String T`; `decodeStruct`, which mutates its target through a
  pointer even on failure, returns the (possibly partially overwritten)
  target next to the `Except`.
* `io.Reader` streams are `List Nat` consumed from the front; every
  decoding function returns the unread remainder.
-/

namespace Ezpack

/-- Go `math.MaxInt32`. -/
def maxInt32 : Nat := 2147483647

/-- Go `math.MaxUint32`. -/
def maxUint32 : Nat := 4294967295

/-- Big-endian 4-byte encoding, as written by `binary.BigEndian.PutUint32`. -/
def be32 (n : Nat) : List Nat :=
  [n / 16777216 % 256, n / 65536 % 256, n / 256 % 256, n % 256]

/-- Big-endian 4-byte decoding, as read by `binary.BigEndian.Uint32`. -/
def fromBe32 (a b c d : Nat) : Nat :=
  ((a * 256 + b) * 256 + c) * 256 + d

/-- Big-endian 8-byte encoding, as written by `binary.BigEndian.PutUint64`. -/
def be64 (n : Nat) : List Nat :=
  [n / 72057594037927936 % 256, n / 281474976710656 % 256,
   n / 1099511627776 % 256, n / 4294967296 % 256,
   n / 16777216 % 256, n / 65536 % 256, n / 256 % 256, n % 256]

/-- Big-endian 8-byte decoding, as read by `binary.BigEndian.Uint64`. -/
def fromBe64 (a b c d e f g h : Nat) : Nat :=
  ((((((a * 256 + b) * 256 + c) * 256 + d) * 256 + e) * 256 + f) * 256 + g) * 256 + h

theorem fromBe32_be32 (n : Nat) (hn : n < 4294967296) :
    fromBe32 (n / 16777216 % 256) (n / 65536 % 256) (n / 256 % 256) (n % 256) = n := by
  unfold fromBe32
  omega

theorem fromBe64_be64 (n : Nat) (hn : n < 18446744073709551616) :
    fromBe64 (n / 72057594037927936 % 256) (n / 281474976710656 % 256)
      (n / 1099511627776 % 256) (n / 4294967296 % 256)
      (n / 16777216 % 256) (n / 65536 % 256) (n / 256 % 256) (n % 256) = n := by
  unfold fromBe64
  omega

/-- Rendering of a Go byte string into an error message (`%s` on a Go
string applied to raw bytes). -/
def strOfBytes (bs : List Nat) : String :=
  String.mk (bs.map Char.ofNat)

/-- Rendering of a byte as Go `%x` (lowercase hexadecimal). -/
def hexStr (n : Nat) : String :=
  String.mk (Nat.toDigits 16 n)

/-! Wire-format type tags, from the constant block of the `encoding`
package. -/

/-- Tag byte for maps (msgpack `map 32`). -/
def PackMapID : Nat := 0xDF

/-- Tag byte for unsigned 64-bit integers (msgpack `uint 64`). -/
def PackUint64ID : Nat := 0xCF

/-- Tag byte for byte strings (msgpack `bin 32`). -/
def PackBytesID : Nat := 0xC6

/-- Tag byte for text strings (msgpack `str 32`). -/
def PackStringID : Nat := 0xDB

/-- Modelled from the spec: the constant `PackArrayID` is referenced by
`PackValueSlice.Encode` and by the array branch of `decodeStruct`, but its
defining constant block is not among the provided sources.  Per the spec
(§4.2) it is a distinct reserved byte value of the wire format, and per
the repository's stated msgpack compliance it is the msgpack `array 32`
tag byte. -/
def PackArrayID : Nat := 0xDD

/-! Struct-tag parsing (`parseStructTag` and friends). -/

/-- The submatch of `tagRegex` (`ezpack:"(\w+)(,(\d+))?".*`) on a struct
tag: `fieldName` is capture group 1 (the wire name, as bytes) and
`maxLenDigits` is capture group 3 (the decimal max-length digits, `[]`
when the optional group is absent, mirroring Go's empty `m[3]`).  A field
whose struct tag does not match the regex at all carries `none` instead
of a `RawTag`. -/
structure RawTag where
  fieldName : List Nat
  maxLenDigits : List Nat
deriving DecidableEq

/-- Parsed-out values from a struct tag (`ezPackStructTag`). -/
structure ezPackStructTag where
  FieldName : List Nat
  MaxLen : Nat
deriving DecidableEq

/-- Maximum allowed length of a field name specified in a struct tag
(`maxTagFieldNameLength`). -/
def maxTagFieldNameLength : Nat := 32

/-- Go `strconv.ParseUint(s, 10, 32)` on the bytes of `s`: fails on an
empty or non-decimal string, or when the value exceeds `MaxUint32`. -/
def parseUint32 (s : List Nat) : Except String Nat :=
  if s.length = 0 ∨ ¬ (s.all (fun b => 48 ≤ b ∧ b ≤ 57)) then
    .error ("strconv.ParseUint: parsing \"" ++ strOfBytes s ++ "\": invalid syntax")
  else
    let v := s.foldl (fun acc b => acc * 10 + (b - 48)) 0
    if v > maxUint32 then
      .error ("strconv.ParseUint: parsing \"" ++ strOfBytes s ++ "\": value out of range")
    else
      .ok v

/-- Go `parseStructTag`.  Note the control flow of the source: when the
wire name exceeds `maxTagFieldNameLength` the error is assigned to `err`
WITHOUT an early return, so a subsequent successful
`strconv.ParseUint` of the max-length digits overwrites `err` with `nil`
and the function returns successfully; the name-too-long error survives
only when the optional max-length group is absent (then nothing reassigns
`err` before the final return). -/
def parseStructTag (st : Option RawTag) (goFieldName : String) : Except String ezPackStructTag :=
  match st with
  | none => .error ("valid ezpack struct tag required on '" ++ goFieldName ++ "'")
  | some m =>
    let encFieldName := m.fieldName
    let nameTooLong := encFieldName.length > maxTagFieldNameLength
    if m.maxLenDigits.length ≠ 0 then
      match parseUint32 m.maxLenDigits with
      | .error e =>
        .error ("error parsing max len for '" ++ strOfBytes encFieldName ++ "': " ++ e)
      | .ok maxLen =>
        if maxLen > maxInt32 then
          .error ("max len for '" ++ strOfBytes encFieldName ++ "' too long: max is " ++
            toString maxInt32)
        else
          .ok ⟨encFieldName, maxLen⟩
    else
      if nameTooLong then
        .error ("field name too long on '" ++ goFieldName ++ "', max " ++
          toString maxTagFieldNameLength)
      else
        .ok ⟨encFieldName, 0⟩

theorem parseStructTag_maxLen_le {st : Option RawTag} {g : String} {tag : ezPackStructTag}
    (h : parseStructTag st g = .ok tag) : tag.MaxLen ≤ maxInt32 := by
  cases st with
  | none => simp [parseStructTag] at h
  | some m =>
    simp only [parseStructTag] at h
    split at h
    · split at h
      · simp at h
      · split at h
        · simp at h
        · next hm =>
            cases h
            dsimp only
            omega
    · split at h
      · simp at h
      · cases h
        simp [maxInt32]

/-! The reflected shape of Go struct types and struct values. -/

mutual
/-- The reflected kind of a Go struct field, as inspected via
`structField.Type.Kind()` by the encoder and decoder: `uint64`, `[]byte`,
`[N]byte`, `string`, a nested struct, a slice of structs, or one of the
rejected shapes (arrays of non-byte elements, slices of other element
kinds, and any other kind), which carry the Go kind name used in the
error message. -/
inductive FieldKind where
  | kuint64
  | kbytes
  | kbyteArray (n : Nat)
  | kstring
  | kstruct (t : StructType)
  | kslice (t : StructType)
  | karrayOther (elemKind : String)
  | ksliceOther (elemKind : String)
  | kother (kindName : String)

/-- One field of a Go struct type: its Go identifier, the `tagRegex`
match on its struct tag, and its reflected kind. -/
inductive FieldDecl where
  | mk (goName : String) (tag : Option RawTag) (kind : FieldKind)

/-- A Go struct type: its `reflect.Type.Name()` and its fields in
declaration order. -/
inductive StructType where
  | mk (name : String) (fields : List FieldDecl)
end

/-- A Go value stored in a struct field.  `isNil` distinguishes Go's nil
slices from non-nil ones (`reflect.DeepEqual` distinguishes them, and the
decoder only ever produces non-nil slices).  A nested struct value is the
list of its field values in declaration order; a slice-of-structs value
is a list of such lists.  `vunsupported` inhabits fields of kinds the
codec rejects. -/
inductive Value where
  | vuint64 (n : Nat)
  | vbytes (isNil : Bool) (bs : List Nat)
  | vbyteArray (bs : List Nat)
  | vstring (s : List Nat)
  | vstruct (fields : List Value)
  | vslice (isNil : Bool) (elems : List (List Value))
  | vunsupported

def StructType.name : StructType → String
  | .mk nm _ => nm

def StructType.fields : StructType → List FieldDecl
  | .mk _ fs => fs

def FieldDecl.goName : FieldDecl → String
  | .mk g _ _ => g

def FieldDecl.tag : FieldDecl → Option RawTag
  | .mk _ tg _ => tg

def FieldDecl.kind : FieldDecl → FieldKind
  | .mk _ _ k => k

/-- Placeholder returned by out-of-range field lookups; unreachable,
since the sorted field list only carries offsets produced by enumerating
the struct's fields. -/
def defaultFieldDecl : FieldDecl := .mk "" none (.kother "")

theorem sizeOf_fieldKind_lt (f : FieldDecl) : sizeOf f.kind < sizeOf f := by
  cases f with
  | mk g tg k => simp [FieldDecl.kind]

theorem sizeOf_fields_lt (t : StructType) : sizeOf t.fields < sizeOf t := by
  cases t with
  | mk nm fs => simp [StructType.fields]

theorem sizeOf_getD_fields_lt {fs : List FieldDecl} {i : Nat} (h : i < fs.length)
    (nm : String) : sizeOf (fs.getD i defaultFieldDecl) < sizeOf (StructType.mk nm fs) := by
  have hm : fs.getD i defaultFieldDecl ∈ fs := by
    rw [List.getD_eq_getElem fs defaultFieldDecl h]
    exact List.getElem_mem h
  have h1 : sizeOf (fs.getD i defaultFieldDecl) < sizeOf fs := List.sizeOf_lt_of_mem hm
  simp only [StructType.mk.sizeOf_spec]
  omega

theorem sizeOf_kstruct_getD_lt {t' t : StructType} {i : Nat}
    (h : (t.fields.getD i defaultFieldDecl).kind = .kstruct t') : sizeOf t' < sizeOf t := by
  cases t with
  | mk nm fs =>
    by_cases hi : i < fs.length
    · have h2 := sizeOf_getD_fields_lt hi nm
      have h3 := sizeOf_fieldKind_lt (fs.getD i defaultFieldDecl)
      rw [show (StructType.mk nm fs).fields = fs from rfl] at h
      rw [h] at h3
      simp only [FieldKind.kstruct.sizeOf_spec] at h3
      omega
    · rw [show (StructType.mk nm fs).fields = fs from rfl] at h
      rw [List.getD_eq_default _ _ (by omega)] at h
      simp [defaultFieldDecl, FieldDecl.kind] at h

theorem sizeOf_kslice_getD_lt {t' t : StructType} {i : Nat}
    (h : (t.fields.getD i defaultFieldDecl).kind = .kslice t') : sizeOf t' < sizeOf t := by
  cases t with
  | mk nm fs =>
    by_cases hi : i < fs.length
    · have h2 := sizeOf_getD_fields_lt hi nm
      have h3 := sizeOf_fieldKind_lt (fs.getD i defaultFieldDecl)
      rw [show (StructType.mk nm fs).fields = fs from rfl] at h
      rw [h] at h3
      simp only [FieldKind.kslice.sizeOf_spec] at h3
      omega
    · rw [show (StructType.mk nm fs).fields = fs from rfl] at h
      rw [List.getD_eq_default _ _ (by omega)] at h
      simp [defaultFieldDecl, FieldDecl.kind] at h

/-! Field sorting (`sortStructFields`). -/

/-- A parsed struct tag together with the declaration-order offset of its
field (`parsedStructField`). -/
structure parsedStructField where
  offset : Nat
  parsedStructTag : ezPackStructTag

/-- Byte-wise lexicographic order on byte strings, the order computed by
Go `strings.Compare` (`lexLeBytes a b` iff `Compare a b != 1`). -/
def lexLeBytes : List Nat → List Nat → Bool
  | [], _ => true
  | _ :: _, [] => false
  | a :: as, b :: bs => if a < b then true else if b < a then false else lexLeBytes as bs

theorem lexLeBytes_total (a b : List Nat) : lexLeBytes a b = true ∨ lexLeBytes b a = true := by
  induction a generalizing b with
  | nil => left; rfl
  | cons x xs ih =>
    cases b with
    | nil => right; rfl
    | cons y ys =>
      by_cases hxy : x < y
      · left; simp [lexLeBytes, hxy]
      · by_cases hyx : y < x
        · right; simp [lexLeBytes, hyx]
        · have hxe : x = y := by omega
          subst hxe
          simpa [lexLeBytes] using ih ys

theorem lexLeBytes_trans {a b c : List Nat} (hab : lexLeBytes a b = true)
    (hbc : lexLeBytes b c = true) : lexLeBytes a c = true := by
  induction a generalizing b c with
  | nil => rfl
  | cons x xs ih =>
    cases b with
    | nil => simp [lexLeBytes] at hab
    | cons y ys =>
      cases c with
      | nil => simp [lexLeBytes] at hbc
      | cons z zs =>
        simp only [lexLeBytes] at hab hbc ⊢
        by_cases hxy : x < y <;> by_cases hyz : y < z
        · simp [show x < z by omega]
        · simp only [hyz, if_false] at hbc
          by_cases hzy : z < y
          · simp [hzy] at hbc
          · have : y = z := by omega
            subst this
            simp [hxy]
        · simp only [hxy, if_false] at hab
          by_cases hyx : y < x
          · simp [hyx] at hab
          · have : x = y := by omega
            subst this
            simp [hyz]
        · simp only [hxy, if_false] at hab
          simp only [hyz, if_false] at hbc
          by_cases hyx : y < x
          · simp [hyx] at hab
          · by_cases hzy : z < y
            · simp [hzy] at hbc
            · have hx : x = y := by omega
              have hy : y = z := by omega
              subst hx; subst hy
              rw [if_neg (lt_irrefl x)] at hab hbc
              rw [if_neg (lt_irrefl x), if_neg (lt_irrefl x)]
              exact ih hab hbc

theorem lexLeBytes_antisymm {a b : List Nat} (hab : lexLeBytes a b = true)
    (hba : lexLeBytes b a = true) : a = b := by
  induction a generalizing b with
  | nil =>
    cases b with
    | nil => rfl
    | cons y ys => simp [lexLeBytes] at hba
  | cons x xs ih =>
    cases b with
    | nil => simp [lexLeBytes] at hab
    | cons y ys =>
      simp only [lexLeBytes] at hab hba
      by_cases hxy : x < y
      · rw [if_neg (by omega : ¬ y < x), if_pos hxy] at hba
        exact absurd hba (by simp)
      · by_cases hyx : y < x
        · rw [if_neg hxy, if_pos hyx] at hab
          exact absurd hab (by simp)
        · have : x = y := by omega
          subst this
          rw [if_neg (lt_irrefl x), if_neg (lt_irrefl x)] at hab hba
          rw [ih hab hba]

/-- The comparison used by `sortStructFields`: Go sorts with
`strings.Compare` on the wire names, byte-wise lexicographic order. -/
def psfLe (p q : parsedStructField) : Prop :=
  lexLeBytes p.parsedStructTag.FieldName q.parsedStructTag.FieldName = true

instance : DecidableRel psfLe := fun p q =>
  inferInstanceAs (Decidable (lexLeBytes _ _ = true))

instance : IsTotal parsedStructField psfLe :=
  ⟨fun p q => lexLeBytes_total p.parsedStructTag.FieldName q.parsedStructTag.FieldName⟩

instance : IsTrans parsedStructField psfLe :=
  ⟨fun _ _ _ hpq hqr => lexLeBytes_trans hpq hqr⟩

/-- The tag-parsing loop of `sortStructFields`: parse each field's struct
tag in declaration order, pairing it with the field's offset `i`, and
stop at the first parse error. -/
def parseAllFields : List FieldDecl → Nat → Except String (List parsedStructField)
  | [], _ => .ok []
  | f :: rest, i =>
    match parseStructTag f.tag f.goName with
    | .error e => .error e
    | .ok pstag =>
      match parseAllFields rest (i + 1) with
      | .error e => .error e
      | .ok tailParsed => .ok (⟨i, pstag⟩ :: tailParsed)

/-- The post-sort duplicate scan of `sortStructFields`: compare each
element with its predecessor and fail on the first equal pair of wire
names. -/
def checkDuplicates : List parsedStructField → Except String Unit
  | [] => .ok ()
  | [_] => .ok ()
  | a :: b :: rest =>
    if b.parsedStructTag.FieldName = a.parsedStructTag.FieldName then
      .error ("found duplicate key '" ++ strOfBytes b.parsedStructTag.FieldName ++ "'")
    else
      checkDuplicates (b :: rest)

/-- Go `sortStructFields`: parse every field's tag, sort the parsed
fields by wire name, and reject duplicates by scanning adjacent entries.
The guard `numFields < 0` cannot fire over `Nat` and is dropped; the
`t.Kind() != reflect.Struct` guard cannot fire since `StructType` only
models struct types.  Go's `sort.Slice` is an unstable sort by strict
byte-wise comparison; insertion sort by the non-strict order produces the
same list whenever the wire names are distinct, and when they are not,
`sortStructFields` fails on the adjacent-duplicate scan either way. -/
def sortStructFields (t : StructType) : Except String (List parsedStructField) :=
  let numFields := t.fields.length
  if numFields > maxInt32 then
    .error "cannot decode massive struct"
  else
    match parseAllFields t.fields 0 with
    | .error e => .error e
    | .ok parsedFields =>
      let sorted := List.insertionSort psfLe parsedFields
      match checkDuplicates sorted with
      | .error e => .error e
      | .ok _ => .ok sorted

/-! The internal msgpack representation (`PackValue` and its `Encode`
methods). -/

/-- The `PackValue` interface together with its implementations:
`PackUint64`, `PackBytes`, `PackString`, `PackMap` (a list of
`PackMapElement`, i.e. key/value pairs with `PackString` keys) and
`PackValueSlice`. -/
inductive PackValue where
  | pu64 (value : Nat)
  | pbytes (bytes : List Nat)
  | pstr (s : List Nat)
  | pmap (elements : List (List Nat × PackValue))
  | parr (values : List PackValue)

/-- Go `ErrOverflow`. -/
def ErrOverflow : String := "integer overflow during encoding"

/-- Go `ErrBufTooShort`.  Every decoder call site maps any short read
from `io.ReadFull` to this error. -/
def ErrBufTooShort : String := "buffer too short"

/-- `PackUint64.Encode`: the type identifier followed by the value,
big-endian.  A Go `uint64` always satisfies `value < 2^64`; the modulus
in `be64` mirrors `PutUint64`'s truncating write for out-of-range model
values. -/
def PackUint64.Encode (value : Nat) : Except String (List Nat) :=
  .ok (PackUint64ID :: be64 value)

/-- `PackBytes.Encode`: overflow guard, then the type identifier, the
4-byte big-endian length, and the data.  Over `Nat` the Go guard
`n <= 0` cannot fire (`n = len + 5 > 0`); the other two disjuncts are
kept as written.  The `copy` sanity check always passes in the model, so
`ErrCopyingBytes` is unreachable. -/
def PackBytes.Encode (bytes : List Nat) : Except String (List Nat) :=
  if bytes.length + 5 > maxInt32 ∨ bytes.length > maxInt32 then
    .error ErrOverflow
  else
    .ok (PackBytesID :: (be32 bytes.length ++ bytes))

/-- `PackString.Encode`: identical to `PackBytes.Encode` except for the
type identifier. -/
def PackString.Encode (s : List Nat) : Except String (List Nat) :=
  if s.length + 5 > maxInt32 ∨ s.length > maxInt32 then
    .error ErrOverflow
  else
    .ok (PackStringID :: (be32 s.length ++ s))

mutual
/-- `PackValue.Encode` dispatched over the implementing type: the scalar
cases defer to the standalone encoders above; `PackValueSlice.Encode` and
`PackMap.Encode` write a 5-byte header and then each element's encoding
(for maps, the `PackString` encoding of the key followed by the value's
encoding), joined by `bytes.Join` into one flat byte string. -/
def PackValue.encode : PackValue → Except String (List Nat)
  | .pu64 v => PackUint64.Encode v
  | .pbytes bs => PackBytes.Encode bs
  | .pstr s => PackString.Encode s
  | .parr vs =>
    if vs.length + 1 > maxInt32 ∨ vs.length > maxInt32 then
      .error ErrOverflow
    else
      match encodePackValues vs with
      | .error e => .error e
      | .ok encs => .ok ((PackArrayID :: be32 vs.length) ++ encs.flatten)
  | .pmap elts =>
    if elts.length + 1 > maxInt32 ∨ elts.length > maxInt32 then
      .error ErrOverflow
    else
      match encodePackMapElements elts with
      | .error e => .error e
      | .ok encs => .ok ((PackMapID :: be32 elts.length) ++ encs.flatten)

/-- The element loop of `PackValueSlice.Encode`: encode each value in
order, stopping at the first error. -/
def encodePackValues : List PackValue → Except String (List (List Nat))
  | [] => .ok []
  | v :: rest =>
    match PackValue.encode v with
    | .error e => .error e
    | .ok venc =>
      match encodePackValues rest with
      | .error e => .error e
      | .ok tail => .ok (venc :: tail)

/-- The element loop of `PackMap.Encode`: encode each key then each
value, in order, stopping at the first error. -/
def encodePackMapElements : List (List Nat × PackValue) → Except String (List (List Nat))
  | [] => .ok []
  | (k, v) :: rest =>
    match PackString.Encode k with
    | .error e => .error e
    | .ok kenc =>
      match PackValue.encode v with
      | .error e => .error e
      | .ok venc =>
        match encodePackMapElements rest with
        | .error e => .error e
        | .ok tail => .ok ((kenc ++ venc) :: tail)
end

/-! The encoder (`structToPackMap` and `Encode`). -/

/-- Error standing in for the Go panics that `reflect` raises when a
value's dynamic shape contradicts its type's kind (e.g.
`fieldValue.Bytes()` on a non-slice); `Encode` recovers them into an
error.  Unreachable for well-typed values. -/
def errEncodeMismatch : String := "recovered panic in Encode: reflect kind mismatch"

mutual
/-- Go `structToPackMap`: reject empty or oversized structs, sort the
fields by wire name, and convert each field in sorted order to a
`PackMapElement` keyed by the wire name, recursing into nested structs
and slices of structs.  The `v.Kind() != reflect.Struct` guard cannot
fire since struct values are passed directly. -/
def structToPackMap (t : StructType) (v : List Value) : Except String PackValue :=
  let numFields := v.length
  if numFields = 0 ∨ numFields > maxInt32 then
    .error "cannot encode massive struct or struct with no fields"
  else
    match sortStructFields t with
    | .error e => .error e
    | .ok parsedFields =>
      match encodeFields t v parsedFields with
      | .error e => .error e
      | .ok elements => .ok (.pmap elements)
  termination_by (sizeOf t, 2, 0)

/-- The field loop of `structToPackMap`: for each sorted field, fetch the
field's declaration and value by offset and build the map element for its
kind.  A fixed-size byte array is copied into a fresh slice and then
encoded exactly like a byte slice (the Go `fallthrough`). -/
def encodeFields (t : StructType) (v : List Value) :
    List parsedStructField → Except String (List (List Nat × PackValue))
  | [] => .ok []
  | pf :: rest =>
    let fieldValue := v.getD pf.offset Value.vunsupported
    let keyName := pf.parsedStructTag.FieldName
    match hk : (t.fields.getD pf.offset defaultFieldDecl).kind with
    | .kbyteArray _ =>
      match fieldValue with
      | .vbyteArray bs =>
        match encodeFields t v rest with
        | .error e => .error e
        | .ok tail => .ok ((keyName, .pbytes bs) :: tail)
      | _ => .error errEncodeMismatch
    | .karrayOther _ => .error "only arrays of byte or uint8 are supported"
    | .kbytes =>
      match fieldValue with
      | .vbytes _ bs =>
        match encodeFields t v rest with
        | .error e => .error e
        | .ok tail => .ok ((keyName, .pbytes bs) :: tail)
      | _ => .error errEncodeMismatch
    | .kslice t' =>
      match fieldValue with
      | .vslice _ elems =>
        match encodeSliceElems t' elems with
        | .error e => .error e
        | .ok values =>
          match encodeFields t v rest with
          | .error e => .error e
          | .ok tail => .ok ((keyName, .parr values) :: tail)
      | _ => .error errEncodeMismatch
    | .ksliceOther elemKind =>
      .error ("can only encode slices of byte, uint8, or struct, not " ++ elemKind)
    | .kstring =>
      match fieldValue with
      | .vstring s =>
        match encodeFields t v rest with
        | .error e => .error e
        | .ok tail => .ok ((keyName, .pstr s) :: tail)
      | _ => .error errEncodeMismatch
    | .kuint64 =>
      match fieldValue with
      | .vuint64 n =>
        match encodeFields t v rest with
        | .error e => .error e
        | .ok tail => .ok ((keyName, .pu64 n) :: tail)
      | _ => .error errEncodeMismatch
    | .kstruct t' =>
      match fieldValue with
      | .vstruct fs =>
        match structToPackMap t' fs with
        | .error e => .error e
        | .ok fmap =>
          match encodeFields t v rest with
          | .error e => .error e
          | .ok tail => .ok ((keyName, fmap) :: tail)
      | _ => .error errEncodeMismatch
    | .kother kindName =>
      .error ("structToPackMap does not know how to handle " ++ kindName)
  termination_by pfs => (sizeOf t, 1, pfs.length)
  decreasing_by
    all_goals
      first
        | exact Prod.Lex.left _ _ (sizeOf_kstruct_getD_lt hk)
        | exact Prod.Lex.left _ _ (sizeOf_kslice_getD_lt hk)
        | exact Prod.Lex.right _ (Prod.Lex.right _ (by simp only [List.length_cons]; omega))

/-- The slice-of-structs loop of `structToPackMap`: convert each element
struct to a `PackMap`, in order. -/
def encodeSliceElems (t' : StructType) : List (List Value) → Except String (List PackValue)
  | [] => .ok []
  | e :: es =>
    match structToPackMap t' e with
    | .error err => .error err
    | .ok vmap =>
      match encodeSliceElems t' es with
      | .error err => .error err
      | .ok tail => .ok (vmap :: tail)
  termination_by es => (sizeOf t', 3, es.length)
end

/-- Go `Encode`: convert the struct to a `PackMap` and serialize it.  The
panic-recovery wrapper is the identity in the model, since the model
raises no panics. -/
def Encode (t : StructType) (o : List Value) : Except String (List Nat) :=
  match structToPackMap t o with
  | .error e => .error e
  | .ok mte => mte.encode

/-! Zero values (`var res T` in Go). -/

mutual
/-- The Go zero value of a field of the given kind: zero for `uint64`,
nil for slices, zero-filled for byte arrays, empty for strings, and the
recursive zero for nested structs. -/
def zeroValue (k : FieldKind) : Value :=
  match k with
  | .kuint64 => .vuint64 0
  | .kbytes => .vbytes true []
  | .kbyteArray n => .vbyteArray (List.replicate n 0)
  | .kstring => .vstring []
  | .kstruct t => .vstruct (zeroStruct t)
  | .kslice _ => .vslice true []
  | .karrayOther _ => .vunsupported
  | .ksliceOther _ => .vunsupported
  | .kother _ => .vunsupported
  termination_by (sizeOf k, 1)
  decreasing_by
    exact Prod.Lex.left _ _ (by simp only [FieldKind.kstruct.sizeOf_spec]; omega)

/-- The Go zero value of a struct type: the zero value of every field. -/
def zeroStruct (t : StructType) : List Value :=
  zeroFields t.fields
  termination_by (sizeOf t, 0)
  decreasing_by
    exact Prod.Lex.left _ _ (sizeOf_fields_lt t)

/-- Helper for `zeroStruct`: zero values of a list of fields. -/
def zeroFields : List FieldDecl → List Value
  | [] => []
  | f :: fs => zeroValue f.kind :: zeroFields fs
  termination_by fs => (sizeOf fs, 0)
  decreasing_by
    · exact Prod.Lex.left _ _
        (by have h1 := sizeOf_fieldKind_lt f; simp only [List.cons.sizeOf_spec]; omega)
    · exact Prod.Lex.left _ _ (by simp only [List.cons.sizeOf_spec]; omega)
end

/-! The decoder (`decoding.go`). -/

/-- Go `io.ReadFull` of `n` bytes from the stream, as used by the
decoder: every call site converts a short read into `ErrBufTooShort`. -/
def readFull (n : Nat) (data : List Nat) : Except String (List Nat × List Nat) :=
  if n ≤ data.length then .ok (data.take n, data.drop n) else .error ErrBufTooShort

/-- Go `decodeCommonHeader`: read the 5-byte header, check the type tag,
and decode the big-endian length. -/
def decodeCommonHeader (data : List Nat) (expectedType : Nat) :
    Except String (Nat × List Nat) :=
  match readFull 5 data with
  | .error _ => .error ErrBufTooShort
  | .ok (headerBytes, rest) =>
    let b0 := headerBytes.getD 0 0
    if b0 ≠ expectedType then
      .error ("got wrong header byte " ++ hexStr b0 ++ ", wanted " ++ hexStr expectedType)
    else
      .ok (fromBe32 (headerBytes.getD 1 0) (headerBytes.getD 2 0)
        (headerBytes.getD 3 0) (headerBytes.getD 4 0), rest)

/-- The message of the error returned by `checkMaxLength` when the
declared length exceeds the user-defined maximum, including the hint
appended when the maximum is zero. -/
def errMaxLength (length maxLength : Nat) : String :=
  "cannot decode value of length " ++ toString length ++ ", max is " ++ toString maxLength ++
    (if maxLength = 0 then " -- did you remember to set a max length in the struct tag?" else "")

/-- Go `checkMaxLength`: reject lengths above the user-defined maximum,
then lengths that would overflow 32-bit signed integers. -/
def checkMaxLength (length maxLength : Nat) : Except String Unit :=
  if length > maxLength then
    .error (errMaxLength length maxLength)
  else if length > maxInt32 then
    .error ("cannot decode value of length " ++ toString length ++
      ": overflows 32-bit signed integers")
  else
    .ok ()

/-- Go `decodeByteSlice`: header, maximum-length check, then allocate and
read exactly `length` bytes. -/
def decodeByteSlice (data : List Nat) (maxLength : Nat) :
    Except String (List Nat × List Nat) :=
  match decodeCommonHeader data PackBytesID with
  | .error e => .error e
  | .ok (length, rest) =>
    match checkMaxLength length maxLength with
    | .error e => .error e
    | .ok _ =>
      match readFull length rest with
      | .error _ => .error ErrBufTooShort
      | .ok (out, rest2) => .ok (out, rest2)

/-- Go `decodeString`: like `decodeByteSlice` with the string tag; the Go
`string(out)` conversion is the identity on the byte list. -/
def decodeString (data : List Nat) (maxLength : Nat) :
    Except String (List Nat × List Nat) :=
  match decodeCommonHeader data PackStringID with
  | .error e => .error e
  | .ok (length, rest) =>
    match checkMaxLength length maxLength with
    | .error e => .error e
    | .ok _ =>
      match readFull length rest with
      | .error _ => .error ErrBufTooShort
      | .ok (out, rest2) => .ok (out, rest2)

/-- Go `decodeUint64`: read the 9-byte encoding, check the tag, decode
big-endian. -/
def decodeUint64 (data : List Nat) : Except String (Nat × List Nat) :=
  match readFull 9 data with
  | .error _ => .error ErrBufTooShort
  | .ok (encoded, rest) =>
    let b0 := encoded.getD 0 0
    if b0 ≠ PackUint64ID then
      .error ("got wrong header byte " ++ hexStr b0 ++ ", wanted " ++ hexStr PackUint64ID)
    else
      .ok (fromBe64 (encoded.getD 1 0) (encoded.getD 2 0) (encoded.getD 3 0)
        (encoded.getD 4 0) (encoded.getD 5 0) (encoded.getD 6 0) (encoded.getD 7 0)
        (encoded.getD 8 0), rest)

/-- The Go wrapping `fmt.Errorf("error decoding '%s': %s", ...)` applied
at each field of `decodeStruct`. -/
def errDecodingField (name : List Nat) (e : String) : String :=
  "error decoding '" ++ strOfBytes name ++ "': " ++ e

/-- Error standing in for the Go panics that `reflect` raises when the
decode target's dynamic shape contradicts its type (e.g. `Len()` on a
non-array); `Decode` recovers them into an error.  Unreachable for
well-typed targets. -/
def errDecodeMismatch : String := "recovered panic in Decode: reflect kind mismatch"

mutual
/-- Go `decodeStruct`: check the field count, decode and check the map
header, sort the struct's fields, and decode each field in sorted order.
The target is threaded through and returned even on failure, because Go
mutates it in place through the passed pointer.  The
`v.Kind() != reflect.Struct` and `CanSet` guards cannot fire in the
model, which always passes an addressable struct target. -/
def decodeStruct (t : StructType) (v : List Value) (data : List Nat) :
    List Value × Except String (List Nat) :=
  let numFields := v.length
  if numFields = 0 ∨ numFields > maxInt32 then
    (v, .error "cannot decode massive struct or struct with no fields")
  else
    match decodeCommonHeader data PackMapID with
    | .error e => (v, .error e)
    | .ok (mapLen, data1) =>
      if mapLen ≠ numFields then
        (v, .error ("got wrong map size for struct " ++ t.name ++ " when decoding map"))
      else
        match sortStructFields t with
        | .error e => (v, .error e)
        | .ok parsedFields => decodeFields t parsedFields v data1
  termination_by (sizeOf t, 2, 0)

/-- The field loop of `decodeStruct`: for each sorted field, decode the
key string, compare it against the expected wire name, then decode a
value of the field's kind and store it at the field's offset. -/
def decodeFields (t : StructType) (pfs : List parsedStructField) (v : List Value)
    (data : List Nat) : List Value × Except String (List Nat) :=
  match pfs with
  | [] => (v, .ok data)
  | pf :: rest =>
    let fieldValue := v.getD pf.offset Value.vunsupported
    let expectedName := pf.parsedStructTag.FieldName
    match decodeString data maxTagFieldNameLength with
    | .error e => (v, .error e)
    | .ok (allegedName, data1) =>
      if allegedName ≠ expectedName then
        (v, .error ("got unexpected field name on wire, wanted " ++ strOfBytes expectedName))
      else
        match hk : (t.fields.getD pf.offset defaultFieldDecl).kind with
        | .kbyteArray _ =>
          match decodeByteSlice data1 pf.parsedStructTag.MaxLen with
          | .error e => (v, .error (errDecodingField expectedName e))
          | .ok (dec, data2) =>
            match fieldValue with
            | .vbyteArray bs =>
              if dec.length ≠ bs.length then
                (v, .error ("expected array of length " ++ toString bs.length ++
                  ", got " ++ toString dec.length))
              else
                decodeFields t rest (v.set pf.offset (.vbyteArray dec)) data2
            | _ => (v, .error errDecodeMismatch)
        | .karrayOther _ => (v, .error "only arrays of byte or uint8 are supported")
        | .kbytes =>
          match decodeByteSlice data1 pf.parsedStructTag.MaxLen with
          | .error e => (v, .error (errDecodingField expectedName e))
          | .ok (dec, data2) =>
            decodeFields t rest (v.set pf.offset (.vbytes false dec)) data2
        | .kslice t' =>
          match decodeCommonHeader data1 PackArrayID with
          | .error e => (v, .error (errDecodingField expectedName e))
          | .ok (length, data2) =>
            match checkMaxLength length pf.parsedStructTag.MaxLen with
            | .error e => (v, .error (errDecodingField expectedName e))
            | .ok _ =>
              if length > maxInt32 then
                (v, .error ("error decoding '" ++ strOfBytes expectedName ++ "': length " ++
                  toString length ++ " overflows 32-bit signed integers"))
              else
                match decodeSliceElems t' length data2 with
                | .error e => (v, .error (errDecodingField expectedName e))
                | .ok (elems, data3) =>
                  decodeFields t rest (v.set pf.offset (.vslice false elems)) data3
        | .ksliceOther elemKind =>
          (v, .error ("can only decode slices of byte, uint8, or struct, not " ++ elemKind))
        | .kstring =>
          match decodeString data1 pf.parsedStructTag.MaxLen with
          | .error e => (v, .error (errDecodingField expectedName e))
          | .ok (dec, data2) =>
            decodeFields t rest (v.set pf.offset (.vstring dec)) data2
        | .kuint64 =>
          match decodeUint64 data1 with
          | .error e => (v, .error (errDecodingField expectedName e))
          | .ok (dec, data2) =>
            decodeFields t rest (v.set pf.offset (.vuint64 dec)) data2
        | .kstruct t' =>
          match fieldValue with
          | .vstruct fs =>
            match decodeStruct t' fs data1 with
            | (fs', .error e) =>
              (v.set pf.offset (.vstruct fs'), .error (errDecodingField expectedName e))
            | (fs', .ok data2) =>
              decodeFields t rest (v.set pf.offset (.vstruct fs')) data2
          | _ => (v, .error errDecodeMismatch)
        | .kother kindName =>
          (v, .error ("decode does not know how to decode into " ++ kindName))
  termination_by (sizeOf t, 1, pfs.length)
  decreasing_by
    all_goals
      first
        | exact Prod.Lex.left _ _ (sizeOf_kstruct_getD_lt hk)
        | exact Prod.Lex.left _ _ (sizeOf_kslice_getD_lt hk)
        | exact Prod.Lex.right _ (Prod.Lex.right _ (by simp only [List.length_cons]; omega))

/-- The slice-of-structs loop of `decodeStruct`: `reflect.MakeSlice`
creates `length` zero-valued elements and each is decoded in place, in
order.  On an element failure Go returns the error and the slice under
construction is discarded (the field is only assigned after the loop). -/
def decodeSliceElems (t' : StructType) (n : Nat) (data : List Nat) :
    Except String (List (List Value) × List Nat) :=
  match n with
  | 0 => .ok ([], data)
  | Nat.succ m =>
    match decodeStruct t' (zeroStruct t') data with
    | (_, .error e) => .error e
    | (sv, .ok data1) =>
      match decodeSliceElems t' m data1 with
      | .error e => .error e
      | .ok (tail, data2) => .ok (sv :: tail, data2)
  termination_by (sizeOf t', 3, n)
end

/-- Go `Decode` on a fully buffered byte slice (`DecodeBytes` wraps the
bytes in a reader and calls `Decode`, which defers to `decodeStruct`).
Trailing bytes after the decoded struct are not inspected.  The
panic-recovery wrapper is the identity in the model. -/
def DecodeBytes (data : List Nat) (t : StructType) (o : List Value) :
    List Value × Except String Unit :=
  match decodeStruct t o data with
  | (v, .error e) => (v, .error e)
  | (v, .ok _) => (v, .ok ())

/-! Helper lemmas about the decoding primitives. -/

theorem readFull_append (xs rest : List Nat) :
    readFull xs.length (xs ++ rest) = .ok (xs, rest) := by
  unfold readFull
  rw [if_pos (by simp)]
  rw [List.take_left, List.drop_left]

theorem be32_length (L : Nat) : (be32 L).length = 4 := by
  simp [be32]

theorem be64_length (v : Nat) : (be64 v).length = 8 := by
  simp [be64]

theorem decodeCommonHeader_encode (tagByte L : Nat) (hL : L < 4294967296)
    (suffix : List Nat) :
    decodeCommonHeader (tagByte :: (be32 L ++ suffix)) tagByte = .ok (L, suffix) := by
  unfold decodeCommonHeader readFull
  rw [if_pos (by simp [be32])]
  simp only [be32, List.cons_append, List.append_assoc]
  simp [List.take_succ_cons, List.drop_succ_cons, fromBe32_be32 L hL]

theorem checkMaxLength_ok {L M : Nat} (h1 : L ≤ M) (h2 : M ≤ maxInt32) :
    checkMaxLength L M = .ok () := by
  unfold checkMaxLength
  rw [if_neg (by omega), if_neg (by omega)]

theorem checkMaxLength_exceeded {L M : Nat} (h : L > M) :
    checkMaxLength L M = .error (errMaxLength L M) := by
  unfold checkMaxLength
  rw [if_pos h]

theorem decodeByteSlice_encode {L M : Nat} (hLM : L ≤ M) (hM : M ≤ maxInt32)
    {payload : List Nat} (hp : payload.length = L) (rest : List Nat) :
    decodeByteSlice (PackBytesID :: (be32 L ++ (payload ++ rest))) M = .ok (payload, rest) := by
  unfold decodeByteSlice
  rw [decodeCommonHeader_encode _ _ (by unfold maxInt32 at hM; omega)]
  dsimp only
  rw [checkMaxLength_ok hLM hM]
  dsimp only
  rw [show L = payload.length from hp.symm, readFull_append]

theorem decodeString_encode {L M : Nat} (hLM : L ≤ M) (hM : M ≤ maxInt32)
    {payload : List Nat} (hp : payload.length = L) (rest : List Nat) :
    decodeString (PackStringID :: (be32 L ++ (payload ++ rest))) M = .ok (payload, rest) := by
  unfold decodeString
  rw [decodeCommonHeader_encode _ _ (by unfold maxInt32 at hM; omega)]
  dsimp only
  rw [checkMaxLength_ok hLM hM]
  dsimp only
  rw [show L = payload.length from hp.symm, readFull_append]

theorem decodeUint64_encode {v : Nat} (hv : v < 18446744073709551616) (rest : List Nat) :
    decodeUint64 (PackUint64ID :: (be64 v ++ rest)) = .ok (v, rest) := by
  unfold decodeUint64 readFull
  rw [if_pos (by simp [be64])]
  simp only [be64, List.cons_append, List.append_assoc]
  simp [List.take_succ_cons, List.drop_succ_cons, fromBe64_be64 v hv]

theorem decodeByteSlice_maxExceeded {L M : Nat} (hL : L < 4294967296) (h : L > M)
    (suffix : List Nat) :
    decodeByteSlice (PackBytesID :: (be32 L ++ suffix)) M = .error (errMaxLength L M) := by
  unfold decodeByteSlice
  rw [decodeCommonHeader_encode _ _ hL]
  dsimp only
  rw [checkMaxLength_exceeded h]

theorem decodeString_maxExceeded {L M : Nat} (hL : L < 4294967296) (h : L > M)
    (suffix : List Nat) :
    decodeString (PackStringID :: (be32 L ++ suffix)) M = .error (errMaxLength L M) := by
  unfold decodeString
  rw [decodeCommonHeader_encode _ _ hL]
  dsimp only
  rw [checkMaxLength_exceeded h]

/-! Example struct types used by concrete claims. -/

/-- A struct with one `[]byte` field tagged `ezpack:"foo,5"`. -/
def exNilType : StructType :=
  .mk "T0" [.mk "Foo" (some ⟨[102, 111, 111], [53]⟩) .kbytes]

/-- The encoding of `exNilType` with a nil `Foo`: a 1-entry map, the key
`"foo"`, and a zero-length byte string. -/
def exNilEnc : List Nat :=
  [0xDF, 0, 0, 0, 1, 0xDB, 0, 0, 0, 3, 102, 111, 111, 0xC6, 0, 0, 0, 0]

/-- A struct with two `uint64` fields tagged `ezpack:"a"` and
`ezpack:"b"`. -/
def exTwoU64 : StructType :=
  .mk "T2" [.mk "A" (some ⟨[97], []⟩) .kuint64, .mk "B" (some ⟨[98], []⟩) .kuint64]

/-! Claim theorems. -/

/-- C8: the five wire-format type tag constants, for Map, UInt64, Bytes,
Text and Array, are each defined as a fixed reserved byte value, and the
five values are pairwise distinct. -/
theorem typeTags_distinct :
    (PackMapID = 0xDF ∧ PackUint64ID = 0xCF ∧ PackBytesID = 0xC6 ∧
      PackStringID = 0xDB ∧ PackArrayID = 0xDD) ∧
    List.Pairwise (fun a b => a ≠ b)
      [PackMapID, PackUint64ID, PackBytesID, PackStringID, PackArrayID] := by
  decide

/-- C4 (the code, against the claim): a field whose wire name is 33 bytes
long resolves SUCCESSFULLY when the tag also declares a max length,
because `parseStructTag` assigns the name-too-long error without
returning and the subsequent successful `strconv.ParseUint` overwrites
it; the error only survives when no max length is declared.  The claim
(and spec §4.1) says resolution must fail with `NameTooLong` regardless. -/
theorem nameTooLong_masked_by_maxLen :
    parseStructTag (some ⟨List.replicate 33 97, [53]⟩) "Foo"
      = .ok ⟨List.replicate 33 97, 5⟩ ∧
    parseStructTag (some ⟨List.replicate 33 97, []⟩) "Foo"
      = .error ("field name too long on 'Foo', max 32") := by
  exact ⟨rfl, rfl⟩

/-- C10: decode is not atomic with respect to the target record.  For the
two-field struct `exTwoU64` and an input carrying a valid first entry
(`"a"` ↦ 5) and then ending, `Decode` fails with a truncation error while
the first field in canonical order has already been overwritten in the
target (5 instead of the zero value 0). -/
theorem decode_not_atomic :
    decodeStruct exTwoU64 (zeroStruct exTwoU64)
      ([0xDF, 0, 0, 0, 2, 0xDB, 0, 0, 0, 1, 97, 0xCF, 0, 0, 0, 0, 0, 0, 0, 5])
      = ([.vuint64 5, .vuint64 0], .error ErrBufTooShort) ∧
    zeroStruct exTwoU64 = [.vuint64 0, .vuint64 0] ∧
    Value.vuint64 5 ≠ Value.vuint64 0 := by
  refine ⟨?_, ?_, by simp⟩
  · simp [decodeStruct, decodeFields, sortStructFields, parseAllFields, parseStructTag,
      checkDuplicates, psfLe, lexLeBytes, decodeString, decodeCommonHeader, readFull,
      fromBe32, checkMaxLength, errMaxLength, decodeUint64, fromBe64, maxInt32,
      zeroStruct, zeroFields, zeroValue, StructType.fields, StructType.name,
      FieldDecl.kind, FieldDecl.tag, FieldDecl.goName, defaultFieldDecl,
      maxTagFieldNameLength, exTwoU64, ErrBufTooShort, maxUint32, parseUint32,
      PackMapID, PackStringID, PackUint64ID]
  · simp [zeroStruct, zeroFields, zeroValue, exTwoU64, StructType.fields, FieldDecl.kind]

/-- C5: for every target record with `N` fields (`1 ≤ N ≤ MaxInt32`) and
every input whose top-level map header declares an entry count `M ≠ N`
(in particular `N+1` and `N−1`), decoding fails with the wrong-map-size
error without decoding any entry: the target is returned unchanged and
the result does not depend on the bytes after the header. -/
theorem wrongMapSize_rejected (t : StructType) (tgt : List Value) (M : Nat)
    (body : List Nat) (h1 : 1 ≤ tgt.length) (h2 : tgt.length ≤ maxInt32)
    (hM : M < 4294967296) (hne : M ≠ tgt.length) :
    decodeStruct t tgt (PackMapID :: (be32 M ++ body)) =
      (tgt, .error ("got wrong map size for struct " ++ t.name ++ " when decoding map")) := by
  have h2' : tgt.length ≤ 2147483647 := h2
  unfold decodeStruct
  rw [if_neg (by simp only [maxInt32]; omega)]
  rw [decodeCommonHeader_encode _ _ hM]
  dsimp only
  rw [if_pos hne]

/-- C2: decoding a byte-slice, string, or array-of-records field whose
wire-declared length `L` exceeds the field's configured maximum `M`
always fails with the length-exceeded error.  The failure consumes only
the header: the result is the same for every suffix, whether or not the
declared payload is present, so no allocation proportional to `L` can
have occurred.  The error message carries both the offending length and
the configured maximum. -/
theorem lengthCeiling_enforced (L M : Nat) (t t2 : StructType) (pf : parsedStructField)
    (rest : List parsedStructField) (tgt : List Value) (name : List Nat)
    (hL : L < 4294967296) (hLM : L > M)
    (hname : pf.parsedStructTag.FieldName = name)
    (hMax : pf.parsedStructTag.MaxLen = M)
    (hk : (t.fields.getD pf.offset defaultFieldDecl).kind = .kslice t2)
    (h32 : name.length ≤ maxTagFieldNameLength) :
    (∀ suffix, decodeByteSlice (PackBytesID :: (be32 L ++ suffix)) M
      = .error (errMaxLength L M)) ∧
    (∀ suffix, decodeString (PackStringID :: (be32 L ++ suffix)) M
      = .error (errMaxLength L M)) ∧
    (∀ suffix, decodeFields t (pf :: rest) tgt
      (PackStringID :: (be32 name.length ++ (name ++ (PackArrayID :: (be32 L ++ suffix)))))
      = (tgt, .error (errDecodingField name (errMaxLength L M)))) ∧
    (∃ pre mid post, errMaxLength L M = pre ++ toString L ++ mid ++ toString M ++ post) := by
  refine ⟨fun suffix => decodeByteSlice_maxExceeded hL hLM suffix,
    fun suffix => decodeString_maxExceeded hL hLM suffix, fun suffix => ?_, ?_⟩
  · unfold decodeFields
    rw [decodeString_encode h32 (by unfold maxTagFieldNameLength maxInt32; omega) rfl]
    dsimp only
    rw [hname, if_neg (fun h => h rfl)]
    rw [hk]
    dsimp only
    rw [decodeCommonHeader_encode _ _ hL]
    dsimp only
    rw [hMax, checkMaxLength_exceeded hLM]
  · refine ⟨"cannot decode value of length ", ", max is ",
      (if M = 0 then " -- did you remember to set a max length in the struct tag?" else ""),
      ?_⟩
    simp [errMaxLength, String.append_assoc]

/-- C6: decoding a fixed-size byte array field from a wire `Bytes` value
whose length `L` differs from the array's size fails: with the
length-exceeded error when `L` also exceeds the field's maximum, and with
the exact-length mismatch error otherwise.  The target is returned
untouched, so the value is never truncated or zero-padded to fit. -/
theorem fixedArray_exact_length (t : StructType) (k L M : Nat) (pf : parsedStructField)
    (rest : List parsedStructField) (tgt : List Value) (name cur payload : List Nat)
    (suffix : List Nat)
    (hname : pf.parsedStructTag.FieldName = name)
    (hMax : pf.parsedStructTag.MaxLen = M) (hM32 : M ≤ maxInt32)
    (hk : (t.fields.getD pf.offset defaultFieldDecl).kind = .kbyteArray k)
    (hcur : tgt.getD pf.offset Value.vunsupported = .vbyteArray cur)
    (h32 : name.length ≤ maxTagFieldNameLength)
    (hp : payload.length = L) (hL : L < 4294967296) (hLN : L ≠ cur.length) :
    decodeFields t (pf :: rest) tgt
      (PackStringID :: (be32 name.length ++ (name ++
        (PackBytesID :: (be32 L ++ (payload ++ suffix))))))
      = (tgt, .error (if L > M then errDecodingField name (errMaxLength L M)
          else "expected array of length " ++ toString cur.length ++
            ", got " ++ toString L)) := by
  unfold decodeFields
  rw [decodeString_encode h32 (by unfold maxTagFieldNameLength maxInt32; omega) rfl]
  dsimp only
  rw [hname, if_neg (fun h => h rfl)]
  rw [hk]
  dsimp only
  rw [hMax]
  by_cases hgt : L > M
  · rw [if_pos hgt, decodeByteSlice_maxExceeded hL hgt]
  · rw [if_neg hgt, decodeByteSlice_encode (by omega) hM32 hp suffix]
    dsimp only
    rw [hcur]
    dsimp only
    rw [if_pos (by rw [hp]; exact hLN), hp]

/-- C7: a variable-length field declared without a maximum-length
annotation resolves to `MaxLen = 0`, and decoding such a field from any
wire value with a nonzero declared length or element count fails with
the length-exceeded error; only a zero-length value decodes (to an empty
byte slice, string, or slice of records respectively). -/
theorem missing_maxLen_zero (name : List Nat) (g : String) (t t2 : StructType)
    (pf : parsedStructField) (rest : List parsedStructField) (tgt : List Value)
    (h32 : name.length ≤ maxTagFieldNameLength)
    (hname : pf.parsedStructTag.FieldName = name)
    (hMax : pf.parsedStructTag.MaxLen = 0)
    (hk : (t.fields.getD pf.offset defaultFieldDecl).kind = .kslice t2) :
    parseStructTag (some ⟨name, []⟩) g = .ok ⟨name, 0⟩ ∧
    (∀ L suffix, 0 < L → L < 4294967296 →
      decodeByteSlice (PackBytesID :: (be32 L ++ suffix)) 0 = .error (errMaxLength L 0)) ∧
    (∀ suffix, decodeByteSlice (PackBytesID :: (be32 0 ++ suffix)) 0 = .ok ([], suffix)) ∧
    (∀ L suffix, 0 < L → L < 4294967296 →
      decodeString (PackStringID :: (be32 L ++ suffix)) 0 = .error (errMaxLength L 0)) ∧
    (∀ suffix, decodeString (PackStringID :: (be32 0 ++ suffix)) 0 = .ok ([], suffix)) ∧
    (∀ C suffix, 0 < C → C < 4294967296 →
      decodeFields t (pf :: rest) tgt
        (PackStringID :: (be32 name.length ++ (name ++ (PackArrayID :: (be32 C ++ suffix)))))
        = (tgt, .error (errDecodingField name (errMaxLength C 0)))) ∧
    (∀ suffix,
      decodeFields t (pf :: rest) tgt
        (PackStringID :: (be32 name.length ++ (name ++ (PackArrayID :: (be32 0 ++ suffix)))))
        = decodeFields t rest (tgt.set pf.offset (.vslice false [])) suffix) := by
  refine ⟨?_, ?_, ?_, ?_, ?_, ?_, ?_⟩
  · unfold parseStructTag
    dsimp only
    rw [if_neg (by simp)]
    rw [if_neg (by unfold maxTagFieldNameLength at h32 ⊢; omega)]
  · intro L suffix hpos hL
    exact decodeByteSlice_maxExceeded hL hpos suffix
  · intro suffix
    simpa using @decodeByteSlice_encode 0 0 (le_refl 0) (Nat.zero_le _) [] rfl suffix
  · intro L suffix hpos hL
    exact decodeString_maxExceeded hL hpos suffix
  · intro suffix
    simpa using @decodeString_encode 0 0 (le_refl 0) (Nat.zero_le _) [] rfl suffix
  · intro C suffix hpos hC
    unfold decodeFields
    rw [decodeString_encode h32 (by unfold maxTagFieldNameLength maxInt32; omega) rfl]
    dsimp only
    rw [hname, if_neg (fun h => h rfl)]
    rw [hk]
    dsimp only
    rw [decodeCommonHeader_encode _ _ hC]
    dsimp only
    rw [hMax, checkMaxLength_exceeded hpos]
  · intro suffix
    conv_lhs => rw [decodeFields]
    rw [decodeString_encode h32 (by unfold maxTagFieldNameLength maxInt32; omega) rfl]
    dsimp only
    rw [hname, if_neg (fun h => h rfl)]
    rw [hk]
    dsimp only
    rw [decodeCommonHeader_encode _ _ (by omega)]
    dsimp only
    rw [hMax, checkMaxLength_ok (le_refl 0) (Nat.zero_le _)]
    dsimp only
    rw [if_neg (by unfold maxInt32; omega)]
    rw [show decodeSliceElems t2 0 suffix = .ok ([], suffix) from by
      rw [decodeSliceElems]]

/-- C9: decoding a byte-slice field produces exactly the wire-declared
number of bytes, and the decoded slice is stored with a non-nil slice
value; in particular, a record whose byte-slice field is nil encodes as a
zero-length `Bytes` value and decodes back to a record holding an empty
NON-nil slice, which `reflect.DeepEqual` distinguishes from the original
nil. -/
theorem byteSlice_decode_nonNil (L M : Nat) (payload rest0 : List Nat)
    (t : StructType) (pf : parsedStructField) (rest : List parsedStructField)
    (tgt : List Value) (name : List Nat)
    (hLM : L ≤ M) (hM : M ≤ maxInt32) (hp : payload.length = L)
    (hname : pf.parsedStructTag.FieldName = name)
    (hk : (t.fields.getD pf.offset defaultFieldDecl).kind = .kbytes)
    (h32 : name.length ≤ maxTagFieldNameLength) :
    decodeByteSlice (PackBytesID :: (be32 L ++ (payload ++ rest0))) M = .ok (payload, rest0) ∧
    (pf.parsedStructTag.MaxLen = M → ∀ suffix,
      decodeFields t (pf :: rest) tgt
        (PackStringID :: (be32 name.length ++ (name ++
          (PackBytesID :: (be32 L ++ (payload ++ suffix))))))
        = decodeFields t rest (tgt.set pf.offset (.vbytes false payload)) suffix) ∧
    Encode exNilType [.vbytes true []] = .ok exNilEnc ∧
    decodeStruct exNilType (zeroStruct exNilType) exNilEnc = ([.vbytes false []], .ok []) ∧
    ([Value.vbytes false []] ≠ ([Value.vbytes true []] : List Value)) := by
  refine ⟨decodeByteSlice_encode hLM hM hp rest0, ?_, ?_, ?_, by simp⟩
  · intro hMax suffix
    conv_lhs => rw [decodeFields]
    rw [decodeString_encode h32 (by unfold maxTagFieldNameLength maxInt32; omega) rfl]
    dsimp only
    rw [hname, if_neg (fun h => h rfl)]
    rw [hk]
    dsimp only
    rw [hMax, decodeByteSlice_encode hLM hM hp suffix]
  · simp [Encode, structToPackMap, encodeFields, sortStructFields, parseAllFields,
      parseStructTag, checkDuplicates, psfLe, lexLeBytes, maxInt32, maxUint32,
      parseUint32, exNilType, exNilEnc, StructType.fields, FieldDecl.kind,
      FieldDecl.tag, FieldDecl.goName, defaultFieldDecl, maxTagFieldNameLength,
      PackValue.encode, encodePackMapElements, encodePackValues, PackBytes.Encode,
      PackString.Encode, PackUint64.Encode, be32, ErrOverflow, PackMapID,
      PackBytesID, PackStringID, strOfBytes]
  · simp [decodeStruct, decodeFields, sortStructFields, parseAllFields, parseStructTag,
      checkDuplicates, psfLe, lexLeBytes, decodeString, decodeByteSlice,
      decodeCommonHeader, readFull, fromBe32, checkMaxLength, errMaxLength, maxInt32,
      zeroStruct, zeroFields, zeroValue, StructType.fields, StructType.name,
      FieldDecl.kind, FieldDecl.tag, FieldDecl.goName, defaultFieldDecl,
      maxTagFieldNameLength, exNilType, exNilEnc, maxUint32, parseUint32,
      PackMapID, PackBytesID, PackStringID]

/-- C1, as literally stated, fails on nil slices: the record whose single
byte-slice field is nil is well-formed (its descriptor resolves with
maximum 5 and the nil value has length 0), `Encode` succeeds, but
decoding the produced bytes into a fresh record yields a record holding
an empty NON-nil slice, which is not equal to the original record. -/
theorem nilSlice_roundtrip_counterexample :
    Encode exNilType [.vbytes true []] = .ok exNilEnc ∧
    decodeStruct exNilType (zeroStruct exNilType) exNilEnc = ([.vbytes false []], .ok []) ∧
    (([Value.vbytes false []] : List Value) ≠ [Value.vbytes true []]) := by
  refine ⟨?_, ?_, by simp⟩
  · simp [Encode, structToPackMap, encodeFields, sortStructFields, parseAllFields,
      parseStructTag, checkDuplicates, psfLe, lexLeBytes, maxInt32, maxUint32,
      parseUint32, exNilType, exNilEnc, StructType.fields, FieldDecl.kind,
      FieldDecl.tag, FieldDecl.goName, defaultFieldDecl, maxTagFieldNameLength,
      PackValue.encode, encodePackMapElements, encodePackValues, PackBytes.Encode,
      PackString.Encode, PackUint64.Encode, be32, ErrOverflow, PackMapID,
      PackBytesID, PackStringID, strOfBytes]
  · simp [decodeStruct, decodeFields, sortStructFields, parseAllFields, parseStructTag,
      checkDuplicates, psfLe, lexLeBytes, decodeString, decodeByteSlice,
      decodeCommonHeader, readFull, fromBe32, checkMaxLength, errMaxLength, maxInt32,
      zeroStruct, zeroFields, zeroValue, StructType.fields, StructType.name,
      FieldDecl.kind, FieldDecl.tag, FieldDecl.goName, defaultFieldDecl,
      maxTagFieldNameLength, exNilType, exNilEnc, maxUint32, parseUint32,
      PackMapID, PackBytesID, PackStringID]

/-! Canonicality machinery: the encoder's behaviour on a struct is a
function of the multiset of (parsed tag, field declaration, field value)
triples, because `sortStructFields` orders them by wire name. -/

/-- Fallback `parsedStructField`, used only for out-of-range `getD`. -/
def defaultPsf : parsedStructField := ⟨0, ⟨[], 0⟩⟩

/-- What `encodeFields` reads of a sorted entry: the parsed tag and the
field declaration and value at the entry's offset. -/
def fetchTriple (t : StructType) (v : List Value) (pf : parsedStructField) :
    ezPackStructTag × FieldDecl × Value :=
  (pf.parsedStructTag, t.fields.getD pf.offset defaultFieldDecl,
    v.getD pf.offset Value.vunsupported)

/-- The parsed tag of a field whose tag parses successfully. -/
def parsedTagOf (f : FieldDecl) : ezPackStructTag :=
  match parseStructTag f.tag f.goName with
  | .ok tag => tag
  | .error _ => ⟨[], 0⟩

/-- The declaration-order list of (parsed tag, declaration, value)
triples of a struct. -/
def tripleList (t : StructType) (v : List Value) :
    List (ezPackStructTag × FieldDecl × Value) :=
  (t.fields.zip v).map (fun fx => (parsedTagOf fx.1, fx.1, fx.2))

/-- The sort order on triples: byte-wise lexicographic on the wire
name. -/
def trLe (a b : ezPackStructTag × FieldDecl × Value) : Prop :=
  lexLeBytes a.1.FieldName b.1.FieldName = true

instance : DecidableRel trLe := fun a b =>
  inferInstanceAs (Decidable (lexLeBytes _ _ = true))

instance : IsTotal (ezPackStructTag × FieldDecl × Value) trLe :=
  ⟨fun a b => lexLeBytes_total a.1.FieldName b.1.FieldName⟩

instance : IsTrans (ezPackStructTag × FieldDecl × Value) trLe :=
  ⟨fun _ _ _ hab hbc => lexLeBytes_trans hab hbc⟩

theorem map_fetchTriple_orderedInsert (t : StructType) (v : List Value)
    (a : parsedStructField) (l : List parsedStructField) :
    (List.orderedInsert psfLe a l).map (fetchTriple t v) =
      List.orderedInsert trLe (fetchTriple t v a) (l.map (fetchTriple t v)) := by
  induction l with
  | nil => rfl
  | cons b bs ih =>
    simp only [List.map_cons, List.orderedInsert]
    by_cases h : psfLe a b
    · rw [if_pos h, if_pos (show trLe (fetchTriple t v a) (fetchTriple t v b) from h)]
      simp [List.map_cons]
    · rw [if_neg h, if_neg (show ¬ trLe (fetchTriple t v a) (fetchTriple t v b) from h)]
      simp only [List.map_cons]
      rw [ih]

theorem map_fetchTriple_insertionSort (t : StructType) (v : List Value)
    (l : List parsedStructField) :
    (List.insertionSort psfLe l).map (fetchTriple t v) =
      List.insertionSort trLe (l.map (fetchTriple t v)) := by
  induction l with
  | nil => rfl
  | cons a l ih =>
    simp only [List.insertionSort, List.map_cons]
    rw [map_fetchTriple_orderedInsert, ih]

theorem parseAllFields_spec : ∀ (fs : List FieldDecl) (i : Nat)
    (pfs : List parsedStructField), parseAllFields fs i = .ok pfs →
    pfs.length = fs.length ∧
    ∀ j, j < fs.length →
      (pfs.getD j defaultPsf).offset = i + j ∧
      parseStructTag (fs.getD j defaultFieldDecl).tag (fs.getD j defaultFieldDecl).goName
        = .ok (pfs.getD j defaultPsf).parsedStructTag
  | [], i, pfs => by
    intro h
    simp only [parseAllFields] at h
    cases h
    exact ⟨rfl, fun j hj => absurd hj (by simp)⟩
  | f :: rest, i, pfs => by
    intro h
    simp only [parseAllFields] at h
    match hp : parseStructTag f.tag f.goName with
    | .error e => rw [hp] at h; simp at h
    | .ok pstag =>
      rw [hp] at h
      match hr : parseAllFields rest (i + 1) with
      | .error e => rw [hr] at h; simp at h
      | .ok tailParsed =>
        rw [hr] at h
        cases h
        obtain ⟨hlen, hspec⟩ := parseAllFields_spec rest (i + 1) tailParsed hr
        refine ⟨by simp [hlen], fun j hj => ?_⟩
        match j with
        | 0 => exact ⟨by simp, by simpa using hp⟩
        | Nat.succ j' =>
          have hj' : j' < rest.length := by simpa using hj
          obtain ⟨h1, h2⟩ := hspec j' hj'
          exact ⟨by simpa [Nat.add_assoc, Nat.add_comm 1 j'] using h1, by simpa using h2⟩

theorem parseAllFields_ok (fs : List FieldDecl) (i : Nat)
    (hparse : ∀ f ∈ fs, parseStructTag f.tag f.goName = .ok (parsedTagOf f)) :
    ∃ pfs, parseAllFields fs i = .ok pfs := by
  induction fs generalizing i with
  | nil => exact ⟨[], rfl⟩
  | cons f rest ih =>
    obtain ⟨tail, htail⟩ := ih (i + 1) (fun g hg => hparse g (by simp [hg]))
    refine ⟨⟨i, parsedTagOf f⟩ :: tail, ?_⟩
    simp only [parseAllFields, hparse f (by simp), htail]

theorem checkDuplicates_ok (l : List parsedStructField)
    (h : l.Pairwise (fun p q => p.parsedStructTag.FieldName ≠ q.parsedStructTag.FieldName)) :
    checkDuplicates l = .ok () := by
  induction l with
  | nil => rfl
  | cons a l ih =>
    match l, h with
    | [], _ => rfl
    | b :: l', h =>
      have hab : a.parsedStructTag.FieldName ≠ b.parsedStructTag.FieldName :=
        (List.pairwise_cons.mp h).1 b (by simp)
      simp only [checkDuplicates]
      rw [if_neg (Ne.symm hab)]
      exact ih (List.pairwise_cons.mp h).2

theorem map_fetchTriple_parseAllFields {t : StructType} {v : List Value}
    {pfs : List parsedStructField} (h : parseAllFields t.fields 0 = .ok pfs)
    (hv : v.length = t.fields.length) :
    pfs.map (fetchTriple t v) = tripleList t v := by
  obtain ⟨hlen, hspec⟩ := parseAllFields_spec t.fields 0 pfs h
  apply List.ext_getElem
  · simp [tripleList, hlen, hv]
  · intro j hj1 hj2
    have hjf : j < t.fields.length := by simpa [hlen] using hj1
    obtain ⟨hoff, htag⟩ := hspec j hjf
    have hjp : j < pfs.length := by omega
    have hjv : j < v.length := by omega
    rw [List.getElem_map]
    simp only [tripleList, List.getElem_map, List.getElem_zip]
    have hpd : pfs[j] = pfs.getD j defaultPsf := by
      rw [List.getD_eq_getElem _ _ hjp]
    have hfd : t.fields[j] = t.fields.getD j defaultFieldDecl := by
      rw [List.getD_eq_getElem _ _ hjf]
    have htag' : parsedTagOf t.fields[j] = pfs[j].parsedStructTag := by
      rw [hpd, hfd]
      unfold parsedTagOf
      rw [htag]
    unfold fetchTriple
    have hoff' : pfs[j].offset = j := by rw [hpd]; omega
    rw [hoff', ← htag', List.getD_eq_getElem _ _ hjf, List.getD_eq_getElem _ _ hjv]

theorem encodeFields_congr {t t' : StructType} {v v' : List Value} :
    ∀ (pfs pfs' : List parsedStructField),
    pfs.map (fetchTriple t v) = pfs'.map (fetchTriple t' v') →
    encodeFields t v pfs = encodeFields t' v' pfs'
  | [], [], _ => by rw [encodeFields, encodeFields]
  | [], pf' :: rest', h => by simp at h
  | pf :: rest, [], h => by simp at h
  | pf :: rest, pf' :: rest', h => by
    simp only [List.map_cons, List.cons.injEq] at h
    obtain ⟨hhead, htail⟩ := h
    unfold fetchTriple at hhead
    simp only [Prod.mk.injEq] at hhead
    obtain ⟨h1, h2, h3⟩ := hhead
    have ht := encodeFields_congr rest rest' htail
    conv_lhs => rw [encodeFields]
    conv_rhs => rw [encodeFields]
    rw [h1, h2, h3, ht]

/-- C3: for every pair of record types whose fields differ only in
declaration order (the multisets of (parsed tag, declaration, value)
pairs coincide), with resolvable tags and pairwise-distinct wire names,
`Encode` produces identical output on equal-valued records: the emitted
map lists the fields sorted lexicographically ascending (byte-wise) by
wire name, an order independent of declaration order. -/
theorem encode_canonical (t t' : StructType) (v v' : List Value)
    (hlen : v.length = t.fields.length) (hlen' : v'.length = t'.fields.length)
    (hn : t.fields.length ≤ maxInt32)
    (hperm : (t.fields.zip v).Perm (t'.fields.zip v'))
    (hparse : ∀ f ∈ t.fields, parseStructTag f.tag f.goName = .ok (parsedTagOf f))
    (hnd : (tripleList t v).Pairwise (fun a b => a.1.FieldName ≠ b.1.FieldName)) :
    Encode t v = Encode t' v' := by
  have hfp : t.fields.Perm t'.fields := by
    have h1 := hperm.map Prod.fst
    rwa [List.map_fst_zip _ _ (le_of_eq hlen.symm),
      List.map_fst_zip _ _ (le_of_eq hlen'.symm)] at h1
  have hvv : v'.length = v.length := by
    rw [hlen, hlen']
    exact hfp.length_eq.symm
  have htperm : (tripleList t v).Perm (tripleList t' v') := hperm.map _
  have hparse' : ∀ f ∈ t'.fields, parseStructTag f.tag f.goName = .ok (parsedTagOf f) :=
    fun f hf => hparse f (hfp.mem_iff.mpr hf)
  have hnd' : (tripleList t' v').Pairwise (fun a b => a.1.FieldName ≠ b.1.FieldName) :=
    (htperm.pairwise_iff (fun h => Ne.symm h)).mp hnd
  obtain ⟨pfs, hpfs⟩ := parseAllFields_ok t.fields 0 hparse
  obtain ⟨pfs', hpfs'⟩ := parseAllFields_ok t'.fields 0 hparse'
  have hmap : pfs.map (fetchTriple t v) = tripleList t v :=
    map_fetchTriple_parseAllFields hpfs hlen
  have hmap' : pfs'.map (fetchTriple t' v') = tripleList t' v' :=
    map_fetchTriple_parseAllFields hpfs' hlen'
  have hpw : pfs.Pairwise
      (fun p q => p.parsedStructTag.FieldName ≠ q.parsedStructTag.FieldName) := by
    have h2 := hnd
    rw [← hmap, List.pairwise_map] at h2
    exact h2
  have hpw' : pfs'.Pairwise
      (fun p q => p.parsedStructTag.FieldName ≠ q.parsedStructTag.FieldName) := by
    have h2 := hnd'
    rw [← hmap', List.pairwise_map] at h2
    exact h2
  have hsort : sortStructFields t = .ok (List.insertionSort psfLe pfs) := by
    unfold sortStructFields
    rw [if_neg (not_lt.mpr hn), hpfs]
    dsimp only
    rw [checkDuplicates_ok _
      (((List.perm_insertionSort psfLe pfs).pairwise_iff (fun h => Ne.symm h)).mpr hpw)]
  have hsort' : sortStructFields t' = .ok (List.insertionSort psfLe pfs') := by
    unfold sortStructFields
    rw [if_neg (not_lt.mpr (hfp.length_eq ▸ hn)), hpfs']
    dsimp only
    rw [checkDuplicates_ok _
      (((List.perm_insertionSort psfLe pfs').pairwise_iff (fun h => Ne.symm h)).mpr hpw')]
  have hkey : (List.insertionSort psfLe pfs).map (fetchTriple t v) =
      (List.insertionSort psfLe pfs').map (fetchTriple t' v') := by
    rw [map_fetchTriple_insertionSort, map_fetchTriple_insertionSort, hmap, hmap']
    have hanti : IsAntisymm (ezPackStructTag × FieldDecl × Value)
        (fun a b => trLe a b ∧ a.1.FieldName ≠ b.1.FieldName) :=
      ⟨fun a b h1 h2 => absurd (lexLeBytes_antisymm h1.1 h2.1) h1.2⟩
    refine @List.eq_of_perm_of_sorted _
      (fun a b => trLe a b ∧ a.1.FieldName ≠ b.1.FieldName) hanti _ _ ?_ ?_ ?_
    · exact (List.perm_insertionSort trLe _).trans
        (htperm.trans (List.perm_insertionSort trLe _).symm)
    · exact (List.sorted_insertionSort trLe (tripleList t v)).and
        (((List.perm_insertionSort trLe (tripleList t v)).pairwise_iff
          (fun h => Ne.symm h)).mpr hnd)
    · exact (List.sorted_insertionSort trLe (tripleList t' v')).and
        (((List.perm_insertionSort trLe (tripleList t' v')).pairwise_iff
          (fun h => Ne.symm h)).mpr hnd')
  have hstm : structToPackMap t v = structToPackMap t' v' := by
    conv_lhs => rw [structToPackMap]
    conv_rhs => rw [structToPackMap]
    rw [hvv]
    by_cases hz : v.length = 0 ∨ v.length > maxInt32
    · rw [if_pos hz, if_pos hz]
    · rw [if_neg hz, if_neg hz, hsort, hsort']
      dsimp only
      rw [encodeFields_congr _ _ hkey]
  unfold Encode
  rw [hstm]

/-! Witnesses: concrete instantiations of the claim theorems above. -/

/-- A struct with one slice-of-`exTwoU64` field tagged `ezpack:"c,3"`. -/
def exSliceType : StructType :=
  .mk "TS" [.mk "C" (some ⟨[99], [51]⟩) (.kslice exTwoU64)]

/-- A struct with one slice-of-`exTwoU64` field tagged `ezpack:"c"` (no
maximum). -/
def exSliceType0 : StructType :=
  .mk "TS0" [.mk "C" (some ⟨[99], []⟩) (.kslice exTwoU64)]

/-- A struct with one `[5]byte` field tagged `ezpack:"bam,5"`. -/
def exArrType : StructType :=
  .mk "TF" [.mk "Bam" (some ⟨[98, 97, 109], [53]⟩) (.kbyteArray 5)]

theorem lengthCeiling_enforced_witness :
    decodeByteSlice (PackBytesID :: (be32 5 ++ [])) 3 = .error (errMaxLength 5 3) :=
  (lengthCeiling_enforced 5 3 exSliceType exTwoU64 ⟨0, ⟨[99], 3⟩⟩ [] [.vslice true []]
    [99] (by decide) (by decide) rfl rfl rfl (by decide)).1 []

theorem wrongMapSize_rejected_witness :
    decodeStruct exTwoU64 [.vuint64 0, .vuint64 0] (PackMapID :: (be32 3 ++ [])) =
      ([Value.vuint64 0, Value.vuint64 0],
        .error ("got wrong map size for struct " ++ exTwoU64.name ++ " when decoding map")) :=
  wrongMapSize_rejected exTwoU64 [.vuint64 0, .vuint64 0] 3 []
    (by decide) (by decide) (by decide) (by decide)

theorem fixedArray_exact_length_witness :
    decodeFields exArrType [⟨0, ⟨[98, 97, 109], 5⟩⟩] [.vbyteArray [0, 0, 0, 0, 0]]
      (PackStringID :: (be32 ([98, 97, 109] : List Nat).length ++ ([98, 97, 109] ++
        (PackBytesID :: (be32 4 ++ ([1, 2, 3, 4] ++ []))))))
      = ([Value.vbyteArray [0, 0, 0, 0, 0]],
          .error (if 4 > 5 then errDecodingField [98, 97, 109] (errMaxLength 4 5)
            else "expected array of length " ++ toString ([0, 0, 0, 0, 0] : List Nat).length ++
              ", got " ++ toString 4)) :=
  fixedArray_exact_length exArrType 5 4 5 ⟨0, ⟨[98, 97, 109], 5⟩⟩ []
    [.vbyteArray [0, 0, 0, 0, 0]] [98, 97, 109] [0, 0, 0, 0, 0] [1, 2, 3, 4] []
    rfl rfl (by decide) rfl rfl (by decide) rfl (by decide) (by decide)

theorem missing_maxLen_zero_witness :
    parseStructTag (some ⟨[99], []⟩) "F" = .ok ⟨[99], 0⟩ :=
  (missing_maxLen_zero [99] "F" exSliceType0 exTwoU64 ⟨0, ⟨[99], 0⟩⟩ []
    [.vslice true []] (by decide) rfl rfl rfl).1

theorem byteSlice_decode_nonNil_witness :
    decodeByteSlice (PackBytesID :: (be32 3 ++ ([1, 2, 3] ++ []))) 5 = .ok ([1, 2, 3], []) :=
  (byteSlice_decode_nonNil 3 5 [1, 2, 3] [] exNilType ⟨0, ⟨[102, 111, 111], 5⟩⟩ []
    [.vbytes true []] [102, 111, 111] (by decide) (by decide) rfl rfl rfl (by decide)).1

theorem encode_canonical_witness :
    Encode (.mk "TA" [.mk "X" (some ⟨[98], []⟩) .kuint64, .mk "Y" (some ⟨[97], []⟩) .kuint64])
        [.vuint64 7, .vuint64 9] =
      Encode (.mk "TB" [.mk "Y" (some ⟨[97], []⟩) .kuint64, .mk "X" (some ⟨[98], []⟩) .kuint64])
        [.vuint64 9, .vuint64 7] :=
  encode_canonical _ _ _ _ rfl rfl (by decide)
    (List.Perm.swap _ _ _)
    (by intro f hf; fin_cases hf <;> rfl)
    (by decide)

/-! Well-formedness predicates for the round-trip property.  These are
not part of the Go source: they delimit the records the spec calls
well-formed (values shaped like their Go types, variable-length values
within the declared maxima, wire names within 32 bytes). -/

mutual
/-- A value has the shape of its field's Go type: correct constructor,
`uint64` values below `2^64`, fixed arrays of the declared size, nil
slices empty, nested structs and slices-of-structs recursively typed.
Fields of unsupported kinds are never well-typed. -/
def WellTypedV : FieldKind → Value → Bool
  | .kuint64, .vuint64 n => decide (n < 18446744073709551616)
  | .kbytes, .vbytes isNil bs => !isNil || bs.length == 0
  | .kbyteArray n, .vbyteArray bs => bs.length == n
  | .kstring, .vstring _ => true
  | .kstruct t', .vstruct fs => WellTypedS t' fs
  | .kslice t', .vslice isNil elems => (!isNil || elems.length == 0) && WellTypedElems t' elems
  | _, _ => false
  termination_by k _ => (sizeOf k, 0, 0)

/-- All elements of a slice of structs are well-typed structs. -/
def WellTypedElems (t' : StructType) : List (List Value) → Bool
  | [] => true
  | e :: es => WellTypedS t' e && WellTypedElems t' es
  termination_by es => (sizeOf t', 3, es.length)

/-- A struct value has one well-typed value per field. -/
def WellTypedS (t : StructType) (v : List Value) : Bool :=
  v.length == t.fields.length && WellTypedFields t.fields v
  termination_by (sizeOf t, 2, 0)
  decreasing_by
    exact Prod.Lex.left _ _ (sizeOf_fields_lt t)

/-- Pointwise typing of a field list against a value list. -/
def WellTypedFields : List FieldDecl → List Value → Bool
  | [], _ => true
  | _ :: _, [] => true
  | f :: fs, x :: xs => WellTypedV f.kind x && WellTypedFields fs xs
  termination_by fs _ => (sizeOf fs, 1, 0)
  decreasing_by
    · exact Prod.Lex.left _ _
        (by have h1 := sizeOf_fieldKind_lt f; simp only [List.cons.sizeOf_spec]; omega)
    · exact Prod.Lex.left _ _ (by simp only [List.cons.sizeOf_spec]; omega)
end

mutual
/-- Every variable-length value fits its field's declared maximum
length: byte slices, fixed arrays and strings by byte count, slices of
structs by element count, recursively. -/
def FitsV : FieldKind → Nat → Value → Bool
  | .kbytes, maxLen, .vbytes _ bs => decide (bs.length ≤ maxLen)
  | .kbyteArray _, maxLen, .vbyteArray bs => decide (bs.length ≤ maxLen)
  | .kstring, maxLen, .vstring s => decide (s.length ≤ maxLen)
  | .kstruct t', _, .vstruct fs => FitsS t' fs
  | .kslice t', maxLen, .vslice _ elems =>
    decide (elems.length ≤ maxLen) && FitsElems t' elems
  | _, _, _ => true
  termination_by k _ _ => (sizeOf k, 0, 0)

/-- All elements of a slice of structs fit their maxima. -/
def FitsElems (t' : StructType) : List (List Value) → Bool
  | [] => true
  | e :: es => FitsS t' e && FitsElems t' es
  termination_by es => (sizeOf t', 3, es.length)

/-- All fields of a struct value fit their declared maxima. -/
def FitsS (t : StructType) (v : List Value) : Bool :=
  FitsFields t.fields v
  termination_by (sizeOf t, 2, 0)
  decreasing_by
    exact Prod.Lex.left _ _ (sizeOf_fields_lt t)

/-- Pointwise `FitsV` against the parsed maximum of each field's tag. -/
def FitsFields : List FieldDecl → List Value → Bool
  | [], _ => true
  | _ :: _, [] => true
  | f :: fs, x :: xs => FitsV f.kind (parsedTagOf f).MaxLen x && FitsFields fs xs
  termination_by fs _ => (sizeOf fs, 1, 0)
  decreasing_by
    · exact Prod.Lex.left _ _
        (by have h1 := sizeOf_fieldKind_lt f; simp only [List.cons.sizeOf_spec]; omega)
    · exact Prod.Lex.left _ _ (by simp only [List.cons.sizeOf_spec]; omega)
end

mutual
/-- No slice-valued field anywhere in the value is nil.  (Nil slices
encode as length 0 but decode back non-nil, so they do not round-trip
under `reflect.DeepEqual`.) -/
def NoNilV : Value → Bool
  | .vbytes isNil _ => !isNil
  | .vstruct fs => NoNilList fs
  | .vslice isNil elems => !isNil && NoNilElems elems
  | _ => true

/-- `NoNilV` over a struct's field values. -/
def NoNilList : List Value → Bool
  | [] => true
  | x :: xs => NoNilV x && NoNilList xs

/-- `NoNilList` over a slice of structs. -/
def NoNilElems : List (List Value) → Bool
  | [] => true
  | e :: es => NoNilList e && NoNilElems es
end

/-- The wire name captured by a tag regex match is at most 32 bytes. -/
def NamesShortTag : Option RawTag → Bool
  | some m => decide (m.fieldName.length ≤ maxTagFieldNameLength)
  | none => true

mutual
/-- Every wire name declared anywhere in the struct type (recursively
through nested structs and slices of structs) is at most 32 bytes, the
maximum the decoder accepts for a map key. -/
def NamesShortT (t : StructType) : Bool :=
  NamesShortFields t.fields
  termination_by (sizeOf t, 2)
  decreasing_by
    exact Prod.Lex.left _ _ (sizeOf_fields_lt t)

/-- `NamesShortT` over a field list. -/
def NamesShortFields : List FieldDecl → Bool
  | [] => true
  | f :: fs => NamesShortTag f.tag && NamesShortKind f.kind && NamesShortFields fs
  termination_by fs => (sizeOf fs, 1)
  decreasing_by
    · exact Prod.Lex.left _ _
        (by have h1 := sizeOf_fieldKind_lt f; simp only [List.cons.sizeOf_spec]; omega)
    · exact Prod.Lex.left _ _ (by simp only [List.cons.sizeOf_spec]; omega)

/-- `NamesShortT` under a field kind. -/
def NamesShortKind : FieldKind → Bool
  | .kstruct t' => NamesShortT t'
  | .kslice t' => NamesShortT t'
  | _ => true
  termination_by k => (sizeOf k, 0)
end

/-- The fold of the decoder's field loop over the target: each sorted
field's offset is overwritten with the encoded record's value at that
offset. -/
def updList (tgt : List Value) (pfs : List parsedStructField) (v : List Value) : List Value :=
  match pfs with
  | [] => tgt
  | pf :: rest => updList (tgt.set pf.offset (v.getD pf.offset Value.vunsupported)) rest v

/-! Inversion and extraction lemmas for the round-trip proof. -/

theorem andE {a b : Bool} (h : (a && b) = true) : a = true ∧ b = true := by
  simp at h
  exact h

theorem andI {a b : Bool} (h1 : a = true) (h2 : b = true) : (a && b) = true := by
  simp [h1, h2]

theorem wtV_uint64 {x : Value} (h : WellTypedV .kuint64 x = true) :
    ∃ n, x = .vuint64 n ∧ n < 18446744073709551616 := by
  cases x <;> simp [WellTypedV] at h ⊢
  exact h

theorem wtV_bytes {x : Value} (h : WellTypedV .kbytes x = true) :
    ∃ isNil bs, x = .vbytes isNil bs := by
  cases x <;> simp [WellTypedV] at h ⊢

theorem wtV_byteArray {sz : Nat} {x : Value} (h : WellTypedV (.kbyteArray sz) x = true) :
    ∃ bs, x = .vbyteArray bs ∧ bs.length = sz := by
  cases x <;> simp [WellTypedV] at h ⊢
  exact h

theorem wtV_string {x : Value} (h : WellTypedV .kstring x = true) :
    ∃ s, x = .vstring s := by
  cases x <;> simp [WellTypedV] at h ⊢

theorem wtV_struct {t' : StructType} {x : Value} (h : WellTypedV (.kstruct t') x = true) :
    ∃ fs, x = .vstruct fs ∧ WellTypedS t' fs = true := by
  cases x <;> rw [WellTypedV] at h
  case vstruct fs => exact ⟨fs, rfl, h⟩
  all_goals simp_all

theorem wtV_slice {t' : StructType} {x : Value} (h : WellTypedV (.kslice t') x = true) :
    ∃ isNil elems, x = .vslice isNil elems ∧ WellTypedElems t' elems = true := by
  cases x <;> rw [WellTypedV] at h
  case vslice isNil elems =>
    exact ⟨isNil, elems, rfl, (andE h).2⟩
  all_goals simp_all

theorem wellTypedS_len {t : StructType} {v : List Value} (h : WellTypedS t v = true) :
    v.length = t.fields.length := by
  rw [WellTypedS] at h
  have h1 := (andE h).1
  simpa using h1

theorem wellTypedFields_at : ∀ (fs : List FieldDecl) (v : List Value) (j : Nat),
    WellTypedFields fs v = true → j < fs.length → j < v.length →
    WellTypedV (fs.getD j defaultFieldDecl).kind (v.getD j Value.vunsupported) = true
  | [], _, j, _, hj, _ => absurd hj (by simp)
  | _ :: _, [], j, _, _, hj => absurd hj (by simp)
  | f :: fs, x :: xs, 0, h, _, _ => by
    rw [WellTypedFields] at h
    exact (andE h).1
  | f :: fs, x :: xs, Nat.succ j, h, hj1, hj2 => by
    rw [WellTypedFields] at h
    exact wellTypedFields_at fs xs j (andE h).2
      (by simpa using hj1) (by simpa using hj2)

theorem wellTypedS_at {t : StructType} {v : List Value} (h : WellTypedS t v = true)
    {j : Nat} (hj : j < t.fields.length) :
    WellTypedV (t.fields.getD j defaultFieldDecl).kind (v.getD j Value.vunsupported) = true := by
  have hl := wellTypedS_len h
  rw [WellTypedS] at h
  exact wellTypedFields_at _ _ j (andE h).2 hj (by omega)

theorem fitsFields_at : ∀ (fs : List FieldDecl) (v : List Value) (j : Nat),
    FitsFields fs v = true → j < fs.length → j < v.length →
    FitsV (fs.getD j defaultFieldDecl).kind (parsedTagOf (fs.getD j defaultFieldDecl)).MaxLen
      (v.getD j Value.vunsupported) = true
  | [], _, j, _, hj, _ => absurd hj (by simp)
  | _ :: _, [], j, _, _, hj => absurd hj (by simp)
  | f :: fs, x :: xs, 0, h, _, _ => by
    rw [FitsFields] at h
    exact (andE h).1
  | f :: fs, x :: xs, Nat.succ j, h, hj1, hj2 => by
    rw [FitsFields] at h
    exact fitsFields_at fs xs j (andE h).2
      (by simpa using hj1) (by simpa using hj2)

theorem noNilList_at : ∀ (v : List Value) (j : Nat), NoNilList v = true →
    NoNilV (v.getD j Value.vunsupported) = true
  | [], j, _ => by simp [List.getD, NoNilV]
  | x :: xs, 0, h => (andE (by rwa [NoNilList] at h)).1
  | x :: xs, Nat.succ j, h => by
    rw [NoNilList] at h
    simpa using noNilList_at xs j (andE h).2

theorem namesShortFields_at : ∀ (fs : List FieldDecl) (j : Nat),
    NamesShortFields fs = true →
    NamesShortTag (fs.getD j defaultFieldDecl).tag = true ∧
    NamesShortKind (fs.getD j defaultFieldDecl).kind = true
  | [], j, _ => by simp [List.getD, defaultFieldDecl, FieldDecl.tag, FieldDecl.kind,
      NamesShortTag, NamesShortKind]
  | f :: fs, 0, h => by
    rw [NamesShortFields] at h
    obtain ⟨h1, h2⟩ := andE h
    exact ⟨(andE h1).1, (andE h1).2⟩
  | f :: fs, Nat.succ j, h => by
    rw [NamesShortFields] at h
    simpa using namesShortFields_at fs j (andE h).2

theorem wellTypedFields_set : ∀ (fs : List FieldDecl) (v : List Value) (j : Nat) (x : Value),
    WellTypedFields fs v = true →
    WellTypedV (fs.getD j defaultFieldDecl).kind x = true →
    WellTypedFields fs (v.set j x) = true
  | [], v, j, x, h, hx => by rw [WellTypedFields]
  | f :: fs, [], j, x, h, hx => by simp [WellTypedFields]
  | f :: fs, y :: ys, 0, x, h, hx => by
    rw [WellTypedFields] at h
    rw [List.set_cons_zero, WellTypedFields]
    exact andI hx (andE h).2
  | f :: fs, y :: ys, Nat.succ j, x, h, hx => by
    rw [WellTypedFields] at h
    rw [List.set_cons_succ, WellTypedFields]
    exact andI (andE h).1
      (wellTypedFields_set fs ys j x (andE h).2 (by simpa using hx))

theorem wellTypedS_set {t : StructType} {tgt : List Value} {j : Nat} {x : Value}
    (h : WellTypedS t tgt = true)
    (hx : WellTypedV (t.fields.getD j defaultFieldDecl).kind x = true) :
    WellTypedS t (tgt.set j x) = true := by
  rw [WellTypedS] at h ⊢
  obtain ⟨h1, h2⟩ := andE h
  exact andI (by simpa using h1) (wellTypedFields_set _ _ j x h2 hx)

theorem zeroFields_length : ∀ fs : List FieldDecl, (zeroFields fs).length = fs.length
  | [] => by rw [zeroFields]; rfl
  | f :: fs => by
    rw [zeroFields]
    simpa using zeroFields_length fs

theorem zeroStruct_length (t : StructType) : (zeroStruct t).length = t.fields.length := by
  rw [zeroStruct]
  exact zeroFields_length t.fields

mutual
/-- The zero value of a supported field kind is well-typed. -/
theorem zero_wtV : ∀ (k : FieldKind) (x : Value), WellTypedV k x = true →
    WellTypedV k (zeroValue k) = true
  | .kuint64, x, _ => by rw [zeroValue, WellTypedV]; decide
  | .kbytes, x, _ => by rw [zeroValue, WellTypedV]; decide
  | .kbyteArray n, x, _ => by
    rw [zeroValue, WellTypedV]
    simp
  | .kstring, x, _ => by rw [zeroValue, WellTypedV]
  | .kstruct t', x, h => by
    obtain ⟨fs, hx, hfs⟩ := wtV_struct h
    rw [zeroValue, WellTypedV]
    exact zero_wtS t' fs hfs
  | .kslice t', x, h => by
    rw [zeroValue, WellTypedV, WellTypedElems]
    decide
  | .karrayOther e, x, h => by
    cases x <;> simp [WellTypedV] at h
  | .ksliceOther e, x, h => by
    cases x <;> simp [WellTypedV] at h
  | .kother e, x, h => by
    cases x <;> simp [WellTypedV] at h
  termination_by k _ => (sizeOf k, 0)

/-- The zero value of a struct type is well-typed whenever some value
is: in particular the fresh target `var res T` is a well-typed decode
target. -/
theorem zero_wtS : ∀ (t : StructType) (v : List Value), WellTypedS t v = true →
    WellTypedS t (zeroStruct t) = true
  | t, v, h => by
    have hlen := wellTypedS_len h
    rw [WellTypedS] at h ⊢
    rw [zeroStruct]
    refine andI ?_ (zero_wtF t.fields v (by omega) (andE h).2)
    have := zeroFields_length t.fields
    simp [this]
  termination_by t _ => (sizeOf t, 2)
  decreasing_by
    all_goals exact Prod.Lex.left _ _ (sizeOf_fields_lt t)

/-- Fieldwise version of `zero_wtS`. -/
theorem zero_wtF : ∀ (fs : List FieldDecl) (v : List Value), v.length = fs.length →
    WellTypedFields fs v = true → WellTypedFields fs (zeroFields fs) = true
  | [], v, _, _ => by rw [zeroFields, WellTypedFields]
  | f :: fs, [], hlen, h => by simp at hlen
  | f :: fs, x :: xs, hlen, h => by
    rw [WellTypedFields] at h
    rw [zeroFields, WellTypedFields]
    exact andI (zero_wtV f.kind x (andE h).1)
      (zero_wtF fs xs (by simpa using hlen) (andE h).2)
  termination_by fs _ _ _ => (sizeOf fs, 1)
  decreasing_by
    · exact Prod.Lex.left _ _
        (by have h1 := sizeOf_fieldKind_lt f; simp only [List.cons.sizeOf_spec]; omega)
    · exact Prod.Lex.left _ _ (by simp only [List.cons.sizeOf_spec]; omega)
end

/-- A successfully parsed tag has the raw match's field name, so a short
raw name bounds the parsed wire name. -/
theorem parseStructTag_name_short {st : Option RawTag} {g : String}
    {tag : ezPackStructTag} (h : parseStructTag st g = .ok tag)
    (hs : NamesShortTag st = true) : tag.FieldName.length ≤ maxTagFieldNameLength := by
  cases st with
  | none => simp [parseStructTag] at h
  | some m =>
    have hm : tag.FieldName = m.fieldName := by
      simp only [parseStructTag] at h
      split at h
      · split at h
        · simp at h
        · split at h
          · simp at h
          · cases h; rfl
      · split at h
        · simp at h
        · cases h; rfl
    rw [NamesShortTag] at hs
    rw [hm]
    simpa using hs

/-- A field whose tag parses has `parsedTagOf` equal to the parse
result. -/
theorem parsedTagOf_eq {f : FieldDecl} {tag : ezPackStructTag}
    (h : parseStructTag f.tag f.goName = .ok tag) : parsedTagOf f = tag := by
  rw [parsedTagOf, h]

/-! Shape inversions of the `Encode` implementations. -/

theorem encode_pu64_inv {n : Nat} {venc : List Nat} (h : PackUint64.Encode n = .ok venc) :
    venc = PackUint64ID :: be64 n := by
  rw [PackUint64.Encode] at h
  cases h
  rfl

theorem encode_pbytes_inv {bs : List Nat} {venc : List Nat}
    (h : PackBytes.Encode bs = .ok venc) :
    venc = PackBytesID :: (be32 bs.length ++ bs) ∧ bs.length ≤ maxInt32 := by
  rw [PackBytes.Encode] at h
  split at h
  · simp at h
  · next hcond =>
    cases h
    exact ⟨rfl, by omega⟩

theorem encode_pstr_inv {s : List Nat} {venc : List Nat}
    (h : PackString.Encode s = .ok venc) :
    venc = PackStringID :: (be32 s.length ++ s) ∧ s.length ≤ maxInt32 := by
  rw [PackString.Encode] at h
  split at h
  · simp at h
  · next hcond =>
    cases h
    exact ⟨rfl, by omega⟩

theorem encode_pmap_inv {elems : List (List Nat × PackValue)} {venc : List Nat}
    (h : PackValue.encode (.pmap elems) = .ok venc) :
    elems.length < maxInt32 ∧ ∃ encs, encodePackMapElements elems = .ok encs ∧
      venc = (PackMapID :: be32 elems.length) ++ encs.flatten := by
  rw [PackValue.encode] at h
  split at h
  · simp at h
  · next hcond =>
    match hm : encodePackMapElements elems with
    | .error e => rw [hm] at h; simp at h
    | .ok encs =>
      rw [hm] at h
      cases h
      exact ⟨by omega, encs, rfl, rfl⟩

theorem encode_parr_inv {vs : List PackValue} {venc : List Nat}
    (h : PackValue.encode (.parr vs) = .ok venc) :
    vs.length < maxInt32 ∧ ∃ encs, encodePackValues vs = .ok encs ∧
      venc = (PackArrayID :: be32 vs.length) ++ encs.flatten := by
  rw [PackValue.encode] at h
  split at h
  · simp at h
  · next hcond =>
    match hm : encodePackValues vs with
    | .error e => rw [hm] at h; simp at h
    | .ok encs =>
      rw [hm] at h
      cases h
      exact ⟨by omega, encs, rfl, rfl⟩

theorem encodeFields_length {t : StructType} {v : List Value} :
    ∀ {pfs : List parsedStructField} {elems : List (List Nat × PackValue)},
    encodeFields t v pfs = .ok elems → elems.length = pfs.length := by
  intro pfs
  induction pfs with
  | nil =>
    intro elems h
    rw [encodeFields] at h
    cases h
    rfl
  | cons pf rest ih =>
    intro elems h
    rw [encodeFields] at h
    repeat' split at h
    all_goals cases h
    all_goals simp only [List.length_cons]
    all_goals rw [ih (by assumption)]

theorem encodeSliceElems_length {t' : StructType} :
    ∀ {elems : List (List Value)} {pvs : List PackValue},
    encodeSliceElems t' elems = .ok pvs → pvs.length = elems.length := by
  intro elems
  induction elems with
  | nil =>
    intro pvs h
    rw [encodeSliceElems] at h
    cases h
    rfl
  | cons e es ih =>
    intro pvs h
    rw [encodeSliceElems] at h
    repeat' split at h
    all_goals cases h
    all_goals simp only [List.length_cons]
    all_goals rw [ih (by assumption)]

theorem parseAllFields_offsets {fs : List FieldDecl} {pfs : List parsedStructField}
    (h : parseAllFields fs 0 = .ok pfs) :
    pfs.map (fun pf => pf.offset) = List.range fs.length := by
  obtain ⟨hlen, hspec⟩ := parseAllFields_spec fs 0 pfs h
  apply List.ext_getElem
  · simp [hlen]
  · intro j hj1 hj2
    have hjf : j < fs.length := by simpa [hlen] using hj1
    have hjp : j < pfs.length := by omega
    obtain ⟨hoff, _⟩ := hspec j hjf
    rw [List.getElem_map, List.getElem_range]
    rw [List.getD_eq_getElem _ _ hjp] at hoff
    omega

theorem sortStructFields_spec {t : StructType} {pfs : List parsedStructField}
    (h : sortStructFields t = .ok pfs) :
    pfs.length = t.fields.length ∧
    (pfs.map (fun pf => pf.offset)).Perm (List.range t.fields.length) ∧
    ∀ pf ∈ pfs, pf.offset < t.fields.length ∧
      parseStructTag (t.fields.getD pf.offset defaultFieldDecl).tag
        (t.fields.getD pf.offset defaultFieldDecl).goName = .ok pf.parsedStructTag := by
  unfold sortStructFields at h
  dsimp only at h
  by_cases hbig : t.fields.length > maxInt32
  · rw [if_pos hbig] at h
    exact absurd h (by simp)
  · rw [if_neg hbig] at h
    match hp : parseAllFields t.fields 0 with
    | .error e => rw [hp] at h; simp at h
    | .ok pfs_un =>
      rw [hp] at h
      dsimp only at h
      split at h
      · simp at h
      · cases h
        obtain ⟨hlen, hspec⟩ := parseAllFields_spec t.fields 0 pfs_un hp
        have hperm : (List.insertionSort psfLe pfs_un).Perm pfs_un :=
          List.perm_insertionSort psfLe pfs_un
        refine ⟨by rw [hperm.length_eq, hlen], ?_, ?_⟩
        · exact (hperm.map _).trans (by rw [parseAllFields_offsets hp])
        · intro pf hpf
          have hmem : pf ∈ pfs_un := (List.mem_insertionSort psfLe).mp hpf
          obtain ⟨j, hj, hpfj⟩ := List.getElem_of_mem hmem
          have hjf : j < t.fields.length := by omega
          obtain ⟨hoff, htag⟩ := hspec j hjf
          rw [List.getD_eq_getElem _ _ hj, hpfj] at hoff htag
          rw [hoff]
          simp only [Nat.zero_add]
          exact ⟨hjf, htag⟩

theorem updList_length : ∀ (pfs : List parsedStructField) (tgt v : List Value),
    (updList tgt pfs v).length = tgt.length
  | [], tgt, v => by rw [updList]
  | pf :: rest, tgt, v => by
    rw [updList]
    rw [updList_length rest _ v]
    simp

theorem updList_getElem?_not_mem :
    ∀ (pfs : List parsedStructField) (tgt v : List Value) (i : Nat),
    i ∉ pfs.map (fun pf => pf.offset) → (updList tgt pfs v)[i]? = tgt[i]?
  | [], tgt, v, i, _ => by rw [updList]
  | pf :: rest, tgt, v, i, h => by
    rw [updList]
    have h1 : i ∉ rest.map (fun pf => pf.offset) := fun hm => h (by simp [hm])
    have h2 : pf.offset ≠ i := fun he => h (by simp [he])
    rw [updList_getElem?_not_mem rest _ v i h1]
    exact List.getElem?_set_ne h2

theorem updList_getElem?_mem :
    ∀ (pfs : List parsedStructField) (tgt v : List Value) (i : Nat),
    i ∈ pfs.map (fun pf => pf.offset) → i < tgt.length →
    (updList tgt pfs v)[i]? = some (v.getD i Value.vunsupported)
  | [], tgt, v, i, h, _ => by simp at h
  | pf :: rest, tgt, v, i, h, hlt => by
    rw [updList]
    by_cases hm : i ∈ rest.map (fun pf => pf.offset)
    · exact updList_getElem?_mem rest _ v i hm (by simpa using hlt)
    · have hoff : pf.offset = i := by
        simp only [List.map_cons, List.mem_cons] at h
        rcases h with h | h
        · omega
        · exact absurd h hm
      rw [updList_getElem?_not_mem rest _ v i hm, hoff]
      simp [List.getElem?_set_self, hlt]

theorem updList_eq {pfs : List parsedStructField} {tgt v : List Value} {n : Nat}
    (hperm : (pfs.map (fun pf => pf.offset)).Perm (List.range n))
    (hts : tgt.length = n) (hv : v.length = n) : updList tgt pfs v = v := by
  apply List.ext_getElem?
  intro i
  by_cases hi : i < n
  · have hm : i ∈ pfs.map (fun pf => pf.offset) :=
      hperm.mem_iff.mpr (List.mem_range.mpr hi)
    rw [updList_getElem?_mem pfs tgt v i hm (by omega)]
    rw [List.getD_eq_getElem _ _ (by omega), List.getElem?_eq_getElem (by omega)]
  · have hm : i ∉ pfs.map (fun pf => pf.offset) := fun hmem =>
      hi (List.mem_range.mp (hperm.mem_iff.mp hmem))
    rw [updList_getElem?_not_mem pfs tgt v i hm]
    rw [List.getElem?_eq_none (by omega), List.getElem?_eq_none (by omega)]

mutual
/-- Round trip at struct level: decoding the serialized `PackMap` of a
well-formed struct value into any well-typed target yields exactly that
value and consumes exactly the encoding. -/
theorem roundtripStruct (t : StructType) (v : List Value) (pm : PackValue)
    (bytes : List Nat) (tgt : List Value) (restB : List Nat)
    (hwt : WellTypedS t v = true) (hfit : FitsS t v = true)
    (hnn : NoNilList v = true) (hns : NamesShortT t = true)
    (hstm : structToPackMap t v = .ok pm) (hbytes : PackValue.encode pm = .ok bytes)
    (hwtTgt : WellTypedS t tgt = true) :
    decodeStruct t tgt (bytes ++ restB) = (v, .ok restB) := by
  rw [structToPackMap] at hstm
  split at hstm
  · exact absurd hstm (by simp)
  · next hnz =>
    match hsort : sortStructFields t with
    | .error e => rw [hsort] at hstm; simp at hstm
    | .ok pfs =>
      rw [hsort] at hstm
      dsimp only at hstm
      match henc : encodeFields t v pfs with
      | .error e => rw [henc] at hstm; simp at hstm
      | .ok elems =>
        rw [henc] at hstm
        dsimp only at hstm
        cases hstm
        obtain ⟨hlt, encs, hencs, hbeq⟩ := encode_pmap_inv hbytes
        subst hbeq
        obtain ⟨hplen, hoffperm, hpmem⟩ := sortStructFields_spec hsort
        have hvlen := wellTypedS_len hwt
        have htlen := wellTypedS_len hwtTgt
        have helen : elems.length = pfs.length := encodeFields_length henc
        rw [decodeStruct]
        rw [if_neg (by rw [htlen, ← hvlen]; exact hnz)]
        rw [show ((PackMapID :: be32 elems.length) ++ encs.flatten) ++ restB
            = PackMapID :: (be32 elems.length ++ (encs.flatten ++ restB)) from by simp]
        rw [decodeCommonHeader_encode _ _ (by unfold maxInt32 at hlt; omega)]
        dsimp only
        rw [if_neg (by omega)]
        rw [hsort]
        dsimp only
        rw [roundtripFields t v pfs elems encs tgt restB hwt hfit hnn hns hpmem henc
          hencs hwtTgt]
        rw [updList_eq hoffperm (by omega) (by omega)]
  termination_by (sizeOf t, 2, 0)

/-- Round trip of the sorted field loop: decoding the concatenated
encodings of the sorted entries writes each field's encoded value back at
its offset and consumes exactly those bytes. -/
theorem roundtripFields (t : StructType) (v : List Value)
    (pfs : List parsedStructField) (elems : List (List Nat × PackValue))
    (encs : List (List Nat)) (tgt : List Value) (restB : List Nat)
    (hwt : WellTypedS t v = true) (hfit : FitsS t v = true)
    (hnn : NoNilList v = true) (hns : NamesShortT t = true)
    (hpfs : ∀ pf ∈ pfs, pf.offset < t.fields.length ∧
      parseStructTag (t.fields.getD pf.offset defaultFieldDecl).tag
        (t.fields.getD pf.offset defaultFieldDecl).goName = .ok pf.parsedStructTag)
    (henc : encodeFields t v pfs = .ok elems)
    (hencs : encodePackMapElements elems = .ok encs)
    (hwtTgt : WellTypedS t tgt = true) :
    decodeFields t pfs tgt (encs.flatten ++ restB) = (updList tgt pfs v, .ok restB) := by
  match pfs with
  | [] =>
    rw [encodeFields] at henc
    cases henc
    rw [encodePackMapElements] at hencs
    cases hencs
    rw [updList]
    simp only [List.flatten_nil, List.nil_append]
    rw [decodeFields]
  | pf :: rest =>
    obtain ⟨hofflt, hparse_pf⟩ := hpfs pf (by simp)
    have hpfs' : ∀ pf' ∈ rest, pf'.offset < t.fields.length ∧
        parseStructTag (t.fields.getD pf'.offset defaultFieldDecl).tag
          (t.fields.getD pf'.offset defaultFieldDecl).goName = .ok pf'.parsedStructTag :=
      fun pf' hm => hpfs pf' (by simp [hm])
    have hvlen := wellTypedS_len hwt
    have htlen := wellTypedS_len hwtTgt
    have hwtF := wellTypedS_at hwt hofflt
    have hwtT := wellTypedS_at hwtTgt hofflt
    have hfitF : FitsV (t.fields.getD pf.offset defaultFieldDecl).kind
        (parsedTagOf (t.fields.getD pf.offset defaultFieldDecl)).MaxLen
        (v.getD pf.offset Value.vunsupported) = true := by
      rw [FitsS] at hfit
      exact fitsFields_at _ _ pf.offset hfit hofflt (by omega)
    have hnnF := noNilList_at v pf.offset hnn
    obtain ⟨hnsTag, hnsKind⟩ := namesShortFields_at t.fields pf.offset
      (by rw [NamesShortT] at hns; exact hns)
    have hMaxEq : parsedTagOf (t.fields.getD pf.offset defaultFieldDecl)
        = pf.parsedStructTag := parsedTagOf_eq hparse_pf
    have hMle : pf.parsedStructTag.MaxLen ≤ maxInt32 := parseStructTag_maxLen_le hparse_pf
    have hName32 : pf.parsedStructTag.FieldName.length ≤ maxTagFieldNameLength :=
      parseStructTag_name_short hparse_pf hnsTag
    rw [hMaxEq] at hfitF
    rw [encodeFields] at henc
    match hk : (t.fields.getD pf.offset defaultFieldDecl).kind with
    | .kuint64 =>
      rw [hk] at hwtF
      obtain ⟨n, hxeq, hnlt⟩ := wtV_uint64 hwtF
      rw [hk, hxeq] at henc
      dsimp only at henc
      match htail : encodeFields t v rest with
      | .error e => rw [htail] at henc; simp at henc
      | .ok tailElems =>
        rw [htail] at henc
        dsimp only at henc
        cases henc
        rw [encodePackMapElements] at hencs
        match hkenc : PackString.Encode pf.parsedStructTag.FieldName with
        | .error e => rw [hkenc] at hencs; simp at hencs
        | .ok kenc =>
          rw [hkenc] at hencs
          dsimp only at hencs
          rw [show PackValue.encode (.pu64 n) = PackUint64.Encode n from by
            rw [PackValue.encode]] at hencs
          rw [PackUint64.Encode] at hencs
          dsimp only at hencs
          match htencs : encodePackMapElements tailElems with
          | .error e => rw [htencs] at hencs; simp at hencs
          | .ok tailEncs =>
            rw [htencs] at hencs
            dsimp only at hencs
            cases hencs
            obtain ⟨hkshape, hklen⟩ := encode_pstr_inv hkenc
            subst hkshape
            rw [decodeFields]
            simp only [List.flatten_cons, List.cons_append, List.append_assoc,
              List.nil_append]
            rw [decodeString_encode hName32 (by unfold maxTagFieldNameLength maxInt32; omega)
              rfl]
            dsimp only
            rw [if_neg (fun hcon => hcon rfl)]
            rw [hk]
            dsimp only
            rw [decodeUint64_encode hnlt]
            dsimp only
            rw [roundtripFields t v rest tailElems tailEncs
              (tgt.set pf.offset (.vuint64 n)) restB hwt hfit hnn hns hpfs' htail htencs
              (wellTypedS_set hwtTgt (by rw [hk, WellTypedV]; simpa using hnlt))]
            rw [updList, hxeq]
    | .kbytes =>
      rw [hk] at hwtF
      obtain ⟨isNil, bs, hxeq⟩ := wtV_bytes hwtF
      have hnil : isNil = false := by
        rw [hxeq, NoNilV] at hnnF
        simpa using hnnF
      subst hnil
      rw [hk, hxeq] at henc
      dsimp only at henc
      match htail : encodeFields t v rest with
      | .error e => rw [htail] at henc; simp at henc
      | .ok tailElems =>
        rw [htail] at henc
        dsimp only at henc
        cases henc
        rw [encodePackMapElements] at hencs
        match hkenc : PackString.Encode pf.parsedStructTag.FieldName with
        | .error e => rw [hkenc] at hencs; simp at hencs
        | .ok kenc =>
          rw [hkenc] at hencs
          dsimp only at hencs
          rw [show PackValue.encode (.pbytes bs) = PackBytes.Encode bs from by
            rw [PackValue.encode]] at hencs
          match hvenc : PackBytes.Encode bs with
          | .error e => rw [hvenc] at hencs; simp at hencs
          | .ok venc =>
            rw [hvenc] at hencs
            dsimp only at hencs
            match htencs : encodePackMapElements tailElems with
            | .error e => rw [htencs] at hencs; simp at hencs
            | .ok tailEncs =>
              rw [htencs] at hencs
              dsimp only at hencs
              cases hencs
              obtain ⟨hkshape, hklen⟩ := encode_pstr_inv hkenc
              subst hkshape
              obtain ⟨hvshape, hvlen2⟩ := encode_pbytes_inv hvenc
              subst hvshape
              have hfitLen : bs.length ≤ pf.parsedStructTag.MaxLen := by
                rw [hk, hxeq, FitsV] at hfitF
                simpa using hfitF
              rw [decodeFields]
              simp only [List.flatten_cons, List.cons_append, List.append_assoc,
                List.nil_append]
              rw [decodeString_encode hName32
                (by unfold maxTagFieldNameLength maxInt32; omega) rfl]
              dsimp only
              rw [if_neg (fun hcon => hcon rfl)]
              rw [hk]
              dsimp only
              rw [decodeByteSlice_encode hfitLen hMle rfl]
              dsimp only
              rw [roundtripFields t v rest tailElems tailEncs
                (tgt.set pf.offset (.vbytes false bs)) restB hwt hfit hnn hns hpfs'
                htail htencs
                (wellTypedS_set hwtTgt (by rw [hk, WellTypedV]; simp))]
              rw [updList, hxeq]
    | .kstring =>
      rw [hk] at hwtF
      obtain ⟨s, hxeq⟩ := wtV_string hwtF
      rw [hk, hxeq] at henc
      dsimp only at henc
      match htail : encodeFields t v rest with
      | .error e => rw [htail] at henc; simp at henc
      | .ok tailElems =>
        rw [htail] at henc
        dsimp only at henc
        cases henc
        rw [encodePackMapElements] at hencs
        match hkenc : PackString.Encode pf.parsedStructTag.FieldName with
        | .error e => rw [hkenc] at hencs; simp at hencs
        | .ok kenc =>
          rw [hkenc] at hencs
          dsimp only at hencs
          rw [show PackValue.encode (.pstr s) = PackString.Encode s from by
            rw [PackValue.encode]] at hencs
          match hvenc : PackString.Encode s with
          | .error e => rw [hvenc] at hencs; simp at hencs
          | .ok venc =>
            rw [hvenc] at hencs
            dsimp only at hencs
            match htencs : encodePackMapElements tailElems with
            | .error e => rw [htencs] at hencs; simp at hencs
            | .ok tailEncs =>
              rw [htencs] at hencs
              dsimp only at hencs
              cases hencs
              obtain ⟨hkshape, hklen⟩ := encode_pstr_inv hkenc
              subst hkshape
              obtain ⟨hvshape, hvlen2⟩ := encode_pstr_inv hvenc
              subst hvshape
              have hfitLen : s.length ≤ pf.parsedStructTag.MaxLen := by
                rw [hk, hxeq, FitsV] at hfitF
                simpa using hfitF
              rw [decodeFields]
              simp only [List.flatten_cons, List.cons_append, List.append_assoc,
                List.nil_append]
              rw [decodeString_encode hName32
                (by unfold maxTagFieldNameLength maxInt32; omega) rfl]
              dsimp only
              rw [if_neg (fun hcon => hcon rfl)]
              rw [hk]
              dsimp only
              rw [decodeString_encode hfitLen hMle rfl]
              dsimp only
              rw [roundtripFields t v rest tailElems tailEncs
                (tgt.set pf.offset (.vstring s)) restB hwt hfit hnn hns hpfs'
                htail htencs
                (wellTypedS_set hwtTgt (by rw [hk, WellTypedV]))]
              rw [updList, hxeq]
    | .kbyteArray sz =>
      rw [hk] at hwtF hwtT
      obtain ⟨bs, hxeq, hbslen⟩ := wtV_byteArray hwtF
      obtain ⟨cur, hteq, hcurlen⟩ := wtV_byteArray hwtT
      rw [hk, hxeq] at henc
      dsimp only at henc
      match htail : encodeFields t v rest with
      | .error e => rw [htail] at henc; simp at henc
      | .ok tailElems =>
        rw [htail] at henc
        dsimp only at henc
        cases henc
        rw [encodePackMapElements] at hencs
        match hkenc : PackString.Encode pf.parsedStructTag.FieldName with
        | .error e => rw [hkenc] at hencs; simp at hencs
        | .ok kenc =>
          rw [hkenc] at hencs
          dsimp only at hencs
          rw [show PackValue.encode (.pbytes bs) = PackBytes.Encode bs from by
            rw [PackValue.encode]] at hencs
          match hvenc : PackBytes.Encode bs with
          | .error e => rw [hvenc] at hencs; simp at hencs
          | .ok venc =>
            rw [hvenc] at hencs
            dsimp only at hencs
            match htencs : encodePackMapElements tailElems with
            | .error e => rw [htencs] at hencs; simp at hencs
            | .ok tailEncs =>
              rw [htencs] at hencs
              dsimp only at hencs
              cases hencs
              obtain ⟨hkshape, hklen⟩ := encode_pstr_inv hkenc
              subst hkshape
              obtain ⟨hvshape, hvlen2⟩ := encode_pbytes_inv hvenc
              subst hvshape
              have hfitLen : bs.length ≤ pf.parsedStructTag.MaxLen := by
                rw [hk, hxeq, FitsV] at hfitF
                simpa using hfitF
              rw [decodeFields]
              simp only [List.flatten_cons, List.cons_append, List.append_assoc,
                List.nil_append]
              rw [decodeString_encode hName32
                (by unfold maxTagFieldNameLength maxInt32; omega) rfl]
              dsimp only
              rw [if_neg (fun hcon => hcon rfl)]
              rw [hk]
              dsimp only
              rw [decodeByteSlice_encode hfitLen hMle rfl]
              dsimp only
              rw [hteq]
              dsimp only
              rw [if_neg (by rw [hbslen, hcurlen]; exact fun hcon => hcon rfl)]
              rw [roundtripFields t v rest tailElems tailEncs
                (tgt.set pf.offset (.vbyteArray bs)) restB hwt hfit hnn hns hpfs'
                htail htencs
                (wellTypedS_set hwtTgt (by rw [hk, WellTypedV]; simpa using hbslen))]
              rw [updList, hxeq]
    | .kstruct t2 =>
      rw [hk] at hwtF hwtT
      obtain ⟨fs, hxeq, hfswt⟩ := wtV_struct hwtF
      obtain ⟨ftgt, hteq, hftgtwt⟩ := wtV_struct hwtT
      rw [hk, hxeq] at henc
      dsimp only at henc
      match hm : structToPackMap t2 fs with
      | .error e => rw [hm] at henc; simp at henc
      | .ok fmap =>
        rw [hm] at henc
        dsimp only at henc
        match htail : encodeFields t v rest with
        | .error e => rw [htail] at henc; simp at henc
        | .ok tailElems =>
          rw [htail] at henc
          dsimp only at henc
          cases henc
          rw [encodePackMapElements] at hencs
          match hkenc : PackString.Encode pf.parsedStructTag.FieldName with
          | .error e => rw [hkenc] at hencs; simp at hencs
          | .ok kenc =>
            rw [hkenc] at hencs
            dsimp only at hencs
            match hvenc : PackValue.encode fmap with
            | .error e => rw [hvenc] at hencs; simp at hencs
            | .ok venc =>
              rw [hvenc] at hencs
              dsimp only at hencs
              match htencs : encodePackMapElements tailElems with
              | .error e => rw [htencs] at hencs; simp at hencs
              | .ok tailEncs =>
                rw [htencs] at hencs
                dsimp only at hencs
                cases hencs
                obtain ⟨hkshape, hklen⟩ := encode_pstr_inv hkenc
                subst hkshape
                have hfsfit : FitsS t2 fs = true := by
                  rw [hk, hxeq, FitsV] at hfitF
                  exact hfitF
                have hfsnn : NoNilList fs = true := by
                  rw [hxeq, NoNilV] at hnnF
                  exact hnnF
                have hfsns : NamesShortT t2 = true := by
                  rw [hk, NamesShortKind] at hnsKind
                  exact hnsKind
                rw [decodeFields]
                simp only [List.flatten_cons, List.cons_append, List.append_assoc,
                  List.nil_append]
                rw [decodeString_encode hName32
                  (by unfold maxTagFieldNameLength maxInt32; omega) rfl]
                dsimp only
                rw [if_neg (fun hcon => hcon rfl)]
                rw [hk]
                dsimp only
                rw [hteq]
                dsimp only
                rw [roundtripStruct t2 fs fmap venc ftgt (tailEncs.flatten ++ restB)
                  hfswt hfsfit hfsnn hfsns hm hvenc hftgtwt]
                dsimp only
                rw [roundtripFields t v rest tailElems tailEncs
                  (tgt.set pf.offset (.vstruct fs)) restB hwt hfit hnn hns hpfs'
                  htail htencs
                  (wellTypedS_set hwtTgt (by rw [hk, WellTypedV]; exact hfswt))]
                rw [updList, hxeq]
    | .kslice t2 =>
      rw [hk] at hwtF
      obtain ⟨isNil, selems, hxeq, hsewt⟩ := wtV_slice hwtF
      have hnil : isNil = false := by
        rw [hxeq, NoNilV] at hnnF
        exact (andE hnnF).1 |> (by simp : (!isNil) = true → isNil = false)
      subst hnil
      rw [hk, hxeq] at henc
      dsimp only at henc
      match hse : encodeSliceElems t2 selems with
      | .error e => rw [hse] at henc; simp at henc
      | .ok pvs =>
        rw [hse] at henc
        dsimp only at henc
        match htail : encodeFields t v rest with
        | .error e => rw [htail] at henc; simp at henc
        | .ok tailElems =>
          rw [htail] at henc
          dsimp only at henc
          cases henc
          rw [encodePackMapElements] at hencs
          match hkenc : PackString.Encode pf.parsedStructTag.FieldName with
          | .error e => rw [hkenc] at hencs; simp at hencs
          | .ok kenc =>
            rw [hkenc] at hencs
            dsimp only at hencs
            match hvenc : PackValue.encode (.parr pvs) with
            | .error e => rw [hvenc] at hencs; simp at hencs
            | .ok venc =>
              rw [hvenc] at hencs
              dsimp only at hencs
              match htencs : encodePackMapElements tailElems with
              | .error e => rw [htencs] at hencs; simp at hencs
              | .ok tailEncs =>
                rw [htencs] at hencs
                dsimp only at hencs
                cases hencs
                obtain ⟨hkshape, hklen⟩ := encode_pstr_inv hkenc
                subst hkshape
                obtain ⟨hcnt, elEncs, helEncs, hvshape⟩ := encode_parr_inv hvenc
                subst hvshape
                have hpvslen : pvs.length = selems.length := encodeSliceElems_length hse
                have hsefit : FitsElems t2 selems = true := by
                  rw [hk, hxeq, FitsV] at hfitF
                  exact (andE hfitF).2
                have hsecnt : selems.length ≤ pf.parsedStructTag.MaxLen := by
                  rw [hk, hxeq, FitsV] at hfitF
                  have := (andE hfitF).1
                  simpa using this
                have hsenn : NoNilElems selems = true := by
                  rw [hxeq, NoNilV] at hnnF
                  exact (andE hnnF).2
                have hsens : NamesShortT t2 = true := by
                  rw [hk, NamesShortKind] at hnsKind
                  exact hnsKind
                rw [decodeFields]
                simp only [List.flatten_cons, List.cons_append, List.append_assoc,
                  List.nil_append]
                rw [decodeString_encode hName32
                  (by unfold maxTagFieldNameLength maxInt32; omega) rfl]
                dsimp only
                rw [if_neg (fun hcon => hcon rfl)]
                rw [hk]
                dsimp only
                rw [hpvslen]
                rw [decodeCommonHeader_encode _ _
                  (by unfold maxInt32 at hMle; omega)]
                dsimp only
                rw [checkMaxLength_ok hsecnt hMle]
                dsimp only
                rw [if_neg (by omega)]
                rw [← hpvslen] at hsecnt ⊢
                rw [hpvslen, roundtripElems t2 selems pvs elEncs (tailEncs.flatten ++ restB)
                  hsewt hsefit hsenn hsens hse helEncs]
                dsimp only
                rw [roundtripFields t v rest tailElems tailEncs
                  (tgt.set pf.offset (.vslice false selems)) restB hwt hfit hnn hns hpfs'
                  htail htencs
                  (wellTypedS_set hwtTgt (by
                    rw [hk, WellTypedV]
                    exact andI (by simp) hsewt))]
                rw [updList, hxeq]
    | .karrayOther e2 =>
      rw [hk] at hwtF
      exact absurd hwtF (by cases hxv : v.getD pf.offset Value.vunsupported <;>
        simp [WellTypedV])
    | .ksliceOther e2 =>
      rw [hk] at hwtF
      exact absurd hwtF (by cases hxv : v.getD pf.offset Value.vunsupported <;>
        simp [WellTypedV])
    | .kother e2 =>
      rw [hk] at hwtF
      exact absurd hwtF (by cases hxv : v.getD pf.offset Value.vunsupported <;>
        simp [WellTypedV])
  termination_by (sizeOf t, 1, pfs.length)
  decreasing_by
    all_goals
      first
        | exact Prod.Lex.left _ _ (sizeOf_kstruct_getD_lt hk)
        | exact Prod.Lex.left _ _ (sizeOf_kslice_getD_lt hk)
        | exact Prod.Lex.right _ (Prod.Lex.right _ (by simp only [List.length_cons]; omega))

/-- Round trip of a slice of structs: decoding `n` concatenated struct
encodings into fresh zero targets yields the original elements. -/
theorem roundtripElems (t' : StructType) (elems : List (List Value))
    (pvs : List PackValue) (encs : List (List Nat)) (restB : List Nat)
    (hwt : WellTypedElems t' elems = true) (hfit : FitsElems t' elems = true)
    (hnn : NoNilElems elems = true) (hns : NamesShortT t' = true)
    (hse : encodeSliceElems t' elems = .ok pvs)
    (hpv : encodePackValues pvs = .ok encs) :
    decodeSliceElems t' elems.length (encs.flatten ++ restB) = .ok (elems, restB) := by
  match elems with
  | [] =>
    rw [encodeSliceElems] at hse
    cases hse
    rw [encodePackValues] at hpv
    cases hpv
    simp only [List.length_nil, List.flatten_nil, List.nil_append]
    rw [decodeSliceElems]
  | e :: es =>
    rw [encodeSliceElems] at hse
    match hm : structToPackMap t' e with
    | .error err => rw [hm] at hse; simp at hse
    | .ok pm =>
      rw [hm] at hse
      dsimp only at hse
      match hms : encodeSliceElems t' es with
      | .error err => rw [hms] at hse; simp at hse
      | .ok tailPvs =>
        rw [hms] at hse
        dsimp only at hse
        cases hse
        rw [encodePackValues] at hpv
        match hv1 : PackValue.encode pm with
        | .error err => rw [hv1] at hpv; simp at hpv
        | .ok venc =>
          rw [hv1] at hpv
          dsimp only at hpv
          match hv2 : encodePackValues tailPvs with
          | .error err => rw [hv2] at hpv; simp at hpv
          | .ok tailEncs =>
            rw [hv2] at hpv
            dsimp only at hpv
            cases hpv
            rw [WellTypedElems] at hwt
            rw [FitsElems] at hfit
            rw [NoNilElems] at hnn
            simp only [List.length_cons, List.flatten_cons, List.append_assoc]
            rw [decodeSliceElems]
            rw [roundtripStruct t' e pm venc (zeroStruct t') (tailEncs.flatten ++ restB)
              (andE hwt).1 (andE hfit).1 (andE hnn).1 hns hm hv1
              (zero_wtS t' e (andE hwt).1)]
            dsimp only
            rw [roundtripElems t' es tailPvs tailEncs restB
              (andE hwt).2 (andE hfit).2 (andE hnn).2 hns hms hv2]
  termination_by (sizeOf t', 3, elems.length)
end

/-- C1 (amended): for every well-formed record — every field well-typed
for a supported kind with resolvable descriptor, wire names within 32
bytes, every variable-length value within its declared maximum, and no
nil slice values — whenever `Encode` produces bytes, decoding those bytes
into a fresh zero record of the same type succeeds and yields a record
equal to the original.  (Without the no-nil condition the claim fails:
see the nil-slice counterexample.) -/
theorem encode_decode_roundtrip (t : StructType) (v : List Value) (bytes : List Nat)
    (hwt : WellTypedS t v = true) (hfit : FitsS t v = true)
    (hnn : NoNilList v = true) (hns : NamesShortT t = true)
    (henc : Encode t v = .ok bytes) :
    decodeStruct t (zeroStruct t) bytes = (v, .ok []) := by
  rw [Encode] at henc
  match hstm : structToPackMap t v with
  | .error e => rw [hstm] at henc; simp at henc
  | .ok pm =>
    rw [hstm] at henc
    dsimp only at henc
    have h := roundtripStruct t v pm bytes (zeroStruct t) [] hwt hfit hnn hns hstm henc
      (zero_wtS t v hwt)
    simpa using h

theorem encode_decode_roundtrip_witness :
    decodeStruct exNilType (zeroStruct exNilType)
      [0xDF, 0, 0, 0, 1, 0xDB, 0, 0, 0, 3, 102, 111, 111, 0xC6, 0, 0, 0, 2, 104, 105]
      = ([.vbytes false [104, 105]], .ok []) :=
  encode_decode_roundtrip exNilType [.vbytes false [104, 105]] _
    (by simp [WellTypedS, WellTypedFields, WellTypedV, exNilType, StructType.fields,
      FieldDecl.kind])
    (by simp [FitsS, FitsFields, FitsV, parsedTagOf, parseStructTag, parseUint32,
      exNilType, StructType.fields, FieldDecl.kind, FieldDecl.tag, FieldDecl.goName,
      maxInt32, maxUint32, maxTagFieldNameLength])
    (by simp [NoNilList, NoNilV])
    (by simp [NamesShortT, NamesShortFields, NamesShortTag, NamesShortKind, exNilType,
      StructType.fields, FieldDecl.kind, FieldDecl.tag, maxTagFieldNameLength])
    (by simp [Encode, structToPackMap, encodeFields, sortStructFields, parseAllFields,
      parseStructTag, checkDuplicates, psfLe, lexLeBytes, maxInt32, maxUint32,
      parseUint32, exNilType, StructType.fields, FieldDecl.kind, FieldDecl.tag,
      FieldDecl.goName, defaultFieldDecl, maxTagFieldNameLength, PackValue.encode,
      encodePackMapElements, encodePackValues, PackBytes.Encode, PackString.Encode,
      PackUint64.Encode, be32, ErrOverflow, PackMapID, PackBytesID, PackStringID,
      strOfBytes])

end Ezpack
